import Mathlib

/-!
Verification of the travelplanner backend (`app.py`, `rag_utils.py`) against its
natural-language specification.  The Python code is shallowly embedded: strings
are modelled as `List Char`, Python string operations (`strip`, `split`,
slicing, f-string interpolation) are translated to explicit list functions, and
all outbound I/O (HTTP fetches, the Google search API, the LLM backends) is
modelled as explicit function parameters describing the behaviour of the
external world, so that every route/aggregator becomes a pure total function.
-/

set_option maxHeartbeats 1000000

/-- Characters treated as whitespace by Python `str.strip()` / `str.split()` /
the regex class `\s` (ASCII range; the source text manipulated here is ASCII
plus CJK, and CJK characters are not whitespace). -/
def pyIsSpace (c : Char) : Bool :=
  c == ' ' || c == '\t' || c == '\n' || c == '\r' || c == '\x0b' || c == '\x0c'

/-- Python `str.strip()`: drop leading and trailing whitespace. -/
def pyStrip (l : List Char) : List Char :=
  ((l.dropWhile pyIsSpace).reverse.dropWhile pyIsSpace).reverse

/-- Convenience coercion from Lean string literals to the `List Char` model. -/
def str (s : String) : List Char := s.data

/-- Python `text.split('\n\n')` (leftmost, non-overlapping). -/
def splitNN : List Char → List (List Char)
  | [] => [[]]
  | [c] => [[c]]
  | c₁ :: c₂ :: rest =>
    if c₁ = '\n' ∧ c₂ = '\n' then
      [] :: splitNN rest
    else
      match splitNN (c₂ :: rest) with
      | [] => [[c₁]]
      | h :: t => (c₁ :: h) :: t

/-- Helper for `pySplitWs`: accumulates the current word (reversed). -/
def pySplitWsAux : List Char → List Char → List (List Char)
  | [], cur => if cur.isEmpty then [] else [cur.reverse]
  | c :: rest, cur =>
    if pyIsSpace c then
      if cur.isEmpty then pySplitWsAux rest [] else cur.reverse :: pySplitWsAux rest []
    else
      pySplitWsAux rest (c :: cur)

/-- Python `str.split()` with no separator: maximal runs of non-whitespace. -/
def pySplitWs (l : List Char) : List (List Char) := pySplitWsAux l []

/-- `rag_utils.split_text_into_chunks`, inner word-packing loop
(`for word in words: ...`), threading the `(chunks, temp_chunk)` state. -/
def packWords (chunk_size : Nat) :
    List (List Char) → List (List Char) → List Char → List (List Char) × List Char
  | [], chunks, temp => (chunks, temp)
  | w :: ws, chunks, temp =>
    if temp.length + w.length + 1 ≤ chunk_size then
      packWords chunk_size ws chunks (if temp.isEmpty then w else temp ++ [' '] ++ w)
    else
      packWords chunk_size ws (if temp.isEmpty then chunks else chunks ++ [temp]) w

/-- `rag_utils.split_text_into_chunks`, one iteration of the outer
`for para in paragraphs` loop on the `(chunks, current_chunk)` state. -/
def processPara (chunk_size : Nat) (st : List (List Char) × List Char)
    (para₀ : List Char) : List (List Char) × List Char :=
  let para := pyStrip para₀
  if para.isEmpty then st
  else
    let chunks := st.1
    let current := st.2
    if current.length + para.length + 2 ≤ chunk_size then
      (chunks, if current.isEmpty then para else current ++ str "\n\n" ++ para)
    else
      let chunks₁ := if current.isEmpty then chunks else chunks ++ [current]
      if chunk_size < para.length then
        let words := pySplitWs para
        let (chunks₂, temp) := packWords chunk_size words chunks₁ []
        (chunks₂, if temp.isEmpty then current else temp)
      else
        (chunks₁, para)

/-- `rag_utils.split_text_into_chunks(text, chunk_size=500, overlap=50)`:
paragraph-greedy packing with word-level splitting of oversized paragraphs.
The `overlap` parameter is accepted, exactly as in the source, and is not
used by the algorithm. -/
def split_text_into_chunks (text : List Char) (chunk_size : Nat) (overlap : Nat) :
    List (List Char) :=
  if text.isEmpty then []
  else
    let paragraphs := splitNN text
    let st := paragraphs.foldl (processPara chunk_size) ([], [])
    if st.2.isEmpty then st.1 else st.1 ++ [st.2]

example : split_text_into_chunks (str "hello world") 500 50 = [str "hello world"] := by decide
example : split_text_into_chunks (str "aaa bbb\n\nccc") 7 50 = [str "aaa bbb", str "ccc"] := by decide
example : split_text_into_chunks (str "aaaa bb cc") 4 50 = [str "aaaa", str "bb", str "cc"] := by decide
example : split_text_into_chunks (str "aaaa bb cc") 5 50 = [str "aaaa", str "bb cc"] := by decide
example : split_text_into_chunks (str "abcdefgh ij") 4 50 = [str "abcdefgh", str "ij"] := by decide
example : split_text_into_chunks [] 500 50 = [] := by decide

/-! ### Calendar exporter (`app.parse_plan_to_ics`) -/

/-- Helper for `splitNLChar`: accumulates the current line (reversed). -/
def splitNLCharAux : List Char → List Char → List (List Char)
  | [], cur => [cur.reverse]
  | c :: rest, cur =>
    if c = '\n' then cur.reverse :: splitNLCharAux rest []
    else splitNLCharAux rest (c :: cur)

/-- Python `text.split('\n')`. -/
def splitNLChar (l : List Char) : List (List Char) := splitNLCharAux l []

/-- Regex `\d` (the texts handled here use ASCII digits). -/
def isDigitChar (c : Char) : Bool := '0' ≤ c && c ≤ '9'

/-- Python `int()` on a non-empty ASCII digit string. -/
def digitsToNat (ds : List Char) : Nat :=
  ds.foldl (fun n c => 10 * n + (c.toNat - '0'.toNat)) 0

/-- Attempt to match the regex `Day\s+(\d+):` (case-insensitively) anchored at
the head of the list, returning the captured digit group.  Since `\s` and `\d`
match disjoint character classes and a literal `:` must follow, the greedy
match is deterministic: maximal whitespace run, then maximal digit run, then
`:`. -/
def matchDayAt : List Char → Option (List Char)
  | d :: a :: y :: rest =>
    if (d == 'D' || d == 'd') && (a == 'A' || a == 'a') && (y == 'Y' || y == 'y') then
      let rest₂ := rest.dropWhile pyIsSpace
      if rest.takeWhile pyIsSpace |>.isEmpty then none
      else
        let ds := rest₂.takeWhile isDigitChar
        if ds.isEmpty then none
        else
          match rest₂.dropWhile isDigitChar with
          | ':' :: _ => some ds
          | _ => none
    else none
  | _ => none

/-- `re.search(r'Day\s+(\d+):', line, re.IGNORECASE)` followed by
`int(day_match.group(1))`: leftmost match anywhere in the line. -/
def findDayMarker : List Char → Option Nat
  | [] => none
  | c :: rest =>
    match matchDayAt (c :: rest) with
    | some ds => some (digitsToNat ds)
    | none => findDayMarker rest

example : findDayMarker (str "### Day 12: temple") = some 12 := by decide
example : findDayMarker (str "day  007:") = some 7 := by decide
example : findDayMarker (str "Day1:") = none := by decide
example : findDayMarker (str "Day 1") = none := by decide
example : findDayMarker (str "- lunch") = none := by decide

/-- One calendar event as produced by the exporter.  Dates are modelled at day
granularity (an `Int` offset on a day axis), so `begin`/`end` are
(day, hour, minute) triples; `start_date` itself is an arbitrary day number. -/
structure CEvent where
  name : List Char
  eventBegin : Int × Nat × Nat
  eventEnd : Int × Nat × Nat
  description : List Char
deriving DecidableEq

/-- Decimal rendering of a `Nat` (Python f-string `{current_day}`), with a
fuel argument so that it reduces by kernel computation. -/
def natDigitsAux : Nat → Nat → List Char → List Char
  | 0, _, acc => acc
  | fuel + 1, n, acc =>
    if n < 10 then Char.ofNat (48 + n) :: acc
    else natDigitsAux fuel (n / 10) (Char.ofNat (48 + n % 10) :: acc)

/-- Decimal rendering of a `Nat`. -/
def natToChars (n : Nat) : List Char := natDigitsAux (n + 1) n []

example : natToChars 120 = str "120" := by decide
example : natToChars 0 = str "0" := by decide

/-- Flushing one accumulated day: the `Event()` built with
`name = f"Day {current_day}: {destination}"`, 09:00–18:00 on
`start_date + timedelta(days=current_day - 1)`, description capped at 1000. -/
def mkDayEvent (destination : List Char) (startDate : Int) (day : Nat)
    (events : List (List Char)) : CEvent :=
  let dayDate : Int := startDate + ((day : Int) - 1)
  { name := str "Day " ++ natToChars day ++ str ": " ++ destination
    eventBegin := (dayDate, 9, 0)
    eventEnd := (dayDate, 18, 0)
    description := (List.intercalate (str "\n") events).take 1000 }

/-- Truthiness of `current_day` in `elif current_day and line and ...`:
`None` and `0` are falsy in Python. -/
def pyTruthyDay : Option Nat → Bool
  | none => false
  | some d => d ≠ 0

/-- The `for line in lines` loop of `parse_plan_to_ics`, threading
`current_day`/`current_events` and appending events (the `ics` library's
event set receives one fresh element per `add`, so it is modelled as the
list of adds in order), including the flush of the final day. -/
def parseLoop (destination : List Char) (startDate : Int) :
    List (List Char) → Option Nat → List (List Char) → List CEvent
  | [], currentDay, currentEvents =>
    match currentDay with
    | some d => if currentEvents.isEmpty then [] else [mkDayEvent destination startDate d currentEvents]
    | none => []
  | line :: rest, currentDay, currentEvents =>
    let l := pyStrip line
    match findDayMarker l with
    | some d =>
      let flushed :=
        match currentDay with
        | some cd => if currentEvents.isEmpty then [] else [mkDayEvent destination startDate cd currentEvents]
        | none => []
      flushed ++ parseLoop destination startDate rest (some d) []
    | none =>
      if pyTruthyDay currentDay && !l.isEmpty && !(List.isPrefixOf ['#'] l) then
        if List.isPrefixOf (str "**") l || List.isPrefixOf (str "-") l || List.isPrefixOf (str "*") l then
          parseLoop destination startDate rest currentDay (currentEvents ++ [l])
        else
          parseLoop destination startDate rest currentDay currentEvents
      else
        parseLoop destination startDate rest currentDay currentEvents

/-- The fallback event (`"Travel Plan: {destination}"` on the start date). -/
def fallbackEvent (planText destination : List Char) (startDate : Int) : CEvent :=
  { name := str "Travel Plan: " ++ destination
    eventBegin := (startDate, 9, 0)
    eventEnd := (startDate, 18, 0)
    description := planText.take 1000 }

/-- `app.parse_plan_to_ics(plan_text, destination, start_date)`: scan the plan
line by line for `Day N:` markers, emitting one 09:00–18:00 event per day,
with a single fallback event when nothing was parsed. -/
def parse_plan_to_ics (planText destination : List Char) (startDate : Int) : List CEvent :=
  let lines := splitNLChar planText
  let events := parseLoop destination startDate lines none []
  if events.isEmpty then [fallbackEvent planText destination startDate] else events

example :
    parse_plan_to_ics (str "Day 1:\n- eat\nDay 2:\n* swim") (str "Goa") 10 =
      [mkDayEvent (str "Goa") 10 1 [str "- eat"], mkDayEvent (str "Goa") 10 2 [str "* swim"]] := by
  decide

example :
    parse_plan_to_ics (str "no markers here") (str "Goa") 10 =
      [fallbackEvent (str "no markers here") (str "Goa") 10] := by decide

example :
    parse_plan_to_ics (str "Day 1:\n# heading\nDay 2:") (str "Goa") 10 =
      [fallbackEvent (str "Day 1:\n# heading\nDay 2:") (str "Goa") 10] := by decide

/-! ### Web search, webpage extraction, destination aggregation (`app.py`) -/

/-- A normalized search result as built by `google_search`
(`{'title': ..., 'snippet': ..., 'link': ...}`). -/
structure SearchResult where
  title : List Char
  snippet : List Char
  link : List Char
deriving DecidableEq

/-- One item of the Google API JSON response; each field may be absent
(`item.get(..., '')`). -/
structure ApiItem where
  title : Option (List Char)
  snippet : Option (List Char)
  link : Option (List Char)
deriving DecidableEq

/-- Outcome of the HTTP exchange performed inside `google_search`:
either a decoded JSON body whose `items` key may be absent, or any
transport/HTTP/decoding exception (all caught by the same handler). -/
inductive ApiOutcome where
  | ok (items : Option (List ApiItem))
  | err
deriving DecidableEq

/-- `app.google_search(query, num_results)`: requires both credentials,
requests `min(num_results, 10)` items, converts every exception to `[]`,
and normalizes each returned item with empty-string defaults. -/
def google_search (apiKey searchEngineId : List Char)
    (doRequest : List Char → Nat → ApiOutcome)
    (query : List Char) (num_results : Nat) : List SearchResult :=
  if apiKey.isEmpty then []
  else if searchEngineId.isEmpty then []
  else
    match doRequest query (min num_results 10) with
    | .err => []
    | .ok none => []
    | .ok (some items) =>
      items.map fun it =>
        { title := it.title.getD [], snippet := it.snippet.getD [], link := it.link.getD [] }

/-- Outcome of the `requests.get` in `extract_webpage_content`: either a
response (status code plus page text) or an exception raised by the
transport (connection error, timeout, ...). -/
inductive FetchOutcome where
  | response (status : Nat) (pageText : List Char)
  | netError
deriving DecidableEq

/-- Helper for `collapseNLGap`, one pass of `re.sub(r'\n\s*\n', '\n\n', text)`.
The state records, after an opening `\n`, whether a closing `\n` has been seen
(`seenEnd`) and buffers the whitespace scanned since the last candidate
closing `\n` (which the greedy `\s*` leaves outside the match). -/
def collapseNLGapAux : List Char → Option (Bool × List Char) → List Char
  | [], none => []
  | [], some (seenEnd, buf) =>
    if seenEnd then '\n' :: '\n' :: buf else '\n' :: buf
  | c :: rest, none =>
    if c = '\n' then collapseNLGapAux rest (some (false, []))
    else c :: collapseNLGapAux rest none
  | c :: rest, some (seenEnd, buf) =>
    if c = '\n' then collapseNLGapAux rest (some (true, []))
    else if pyIsSpace c then collapseNLGapAux rest (some (seenEnd, buf ++ [c]))
    else
      (if seenEnd then '\n' :: '\n' :: buf else '\n' :: buf) ++ c :: collapseNLGapAux rest none

/-- `re.sub(r'\n\s*\n', '\n\n', text)`. -/
def collapseNLGap (l : List Char) : List Char := collapseNLGapAux l none

example : collapseNLGap (str "a\n \t\nb") = str "a\n\nb" := by decide
example : collapseNLGap (str "a\n\n\n\nb") = str "a\n\nb" := by decide
example : collapseNLGap (str "a\nb") = str "a\nb" := by decide

/-- Helper for `collapseSpaces`: the flag records being inside a space run. -/
def collapseSpacesAux : List Char → Bool → List Char
  | [], _ => []
  | c :: rest, inRun =>
    if c = ' ' then
      if inRun then collapseSpacesAux rest true else ' ' :: collapseSpacesAux rest true
    else c :: collapseSpacesAux rest false

/-- `re.sub(r' +', ' ', text)`. -/
def collapseSpaces (l : List Char) : List Char := collapseSpacesAux l false

example : collapseSpaces (str "a   b c") = str "a b c" := by decide

/-- `if len(text) > max_length: text = text[:max_length] + '...'`. -/
def truncateWithEllipsis (max_length : Nat) (t : List Char) : List Char :=
  if max_length < t.length then t.take max_length ++ str "..." else t

/-- `app.extract_webpage_content(url, max_length)`.  The fetch is the given
`FetchOutcome`; the third-party HTML parsing and content selection
(`BeautifulSoup`, tag removal, `article`/`main`/... selection, `get_text`)
is abstracted as `parseMain`.  All failure paths (transport exception, 403,
404, `raise_for_status` on other error statuses) return `none`; every
exception is caught, so the function never raises. -/
def extract_webpage_content (fetch : FetchOutcome)
    (parseMain : List Char → List Char) (max_length : Nat) : Option (List Char) :=
  match fetch with
  | .netError => none
  | .response status pageText =>
    if status = 403 then none
    else if status = 404 then none
    else if 400 ≤ status ∧ status < 600 then none
    else
      some (truncateWithEllipsis max_length (collapseSpaces (collapseNLGap (parseMain pageText))))

/-- A search result after the aggregator's enrichment pass: `content` is set
only when extraction returned a non-empty text (`if content:`). -/
structure EnrichedResult extends SearchResult where
  content : Option (List Char)
deriving DecidableEq

/-- Enrichment of one result (`content = extract_webpage_content(...)`;
`if content: result['content'] = content`; the result is appended either
way). -/
def enrichResult (web : List Char → FetchOutcome) (parseMain : List Char → List Char)
    (max_length : Nat) (r : SearchResult) : EnrichedResult :=
  match extract_webpage_content (web r.link) parseMain max_length with
  | some c => if c.isEmpty then { toSearchResult := r, content := none }
              else { toSearchResult := r, content := some c }
  | none => { toSearchResult := r, content := none }

/-- Link-based deduplication preserving first-seen order (`seen_links` set,
`unique_results` list). -/
def dedupByLink : List SearchResult → List (List Char) → List SearchResult
  | [], _ => []
  | r :: rest, seen =>
    if r.link ∈ seen then dedupByLink rest seen
    else r :: dedupByLink rest (r.link :: seen)

/-- The fixed topical queries of `search_destination_info`, with the optional
preference query. -/
def search_queries (destination days preferences : List Char) : List (List Char) :=
  [destination ++ str " " ++ days ++ str "天 旅游攻略 景点推荐",
   destination ++ str " 美食推荐 餐厅",
   destination ++ str " 住宿推荐 酒店"] ++
  (if preferences.isEmpty then [] else [destination ++ str " " ++ preferences])

/-- All results gathered across the aggregator's queries, concatenated in
query order (`all_results.extend(results)`).  `gs` is the behaviour of the
underlying `google_search(query, num_results=3)` call. -/
def aggregatorResults (gs : List Char → List SearchResult)
    (destination days preferences : List Char) : List SearchResult :=
  (search_queries destination days preferences).flatMap gs

/-- `app.search_destination_info(destination, days, preferences)`:
concatenate per-query results, deduplicate by link (first seen wins), stop
early when nothing was found, then enrich the first 5 unique results with
extracted page content (`max_length=1500`), keeping a result even when
extraction fails. -/
def search_destination_info (gs : List Char → List SearchResult)
    (web : List Char → FetchOutcome) (parseMain : List Char → List Char)
    (destination days preferences : List Char) : List EnrichedResult :=
  let unique := dedupByLink (aggregatorResults gs destination days preferences) []
  if unique.isEmpty then []
  else (unique.take 5).map (enrichResult web parseMain 1500)

/-! ### Itinerary prompt builder (`app.generate_plan`, prompt construction) -/

/-- ASCII lowercasing (Python `str.lower()`; all strings compared with it in
the source are ASCII). -/
def asciiLower (c : Char) : Char :=
  if 'A' ≤ c ∧ c ≤ 'Z' then Char.ofNat (c.toNat + 32) else c

/-- Python `str.lower()` on the model strings. -/
def pyLower (l : List Char) : List Char := l.map asciiLower

/-- The substring relation (Python `in` on strings / the claims' word
"contains"). -/
def listContains (pat l : List Char) : Prop := ∃ p s, p ++ pat ++ s = l

/-- Boolean substring search, used where the source tests `'401' in error`. -/
def containsStr (pat l : List Char) : Bool :=
  l.tails.any fun t => List.isPrefixOf pat t

/-- The compact prompt template sent to the local model (the
`if llm_mode == 'local'` branch of `generate_plan`). -/
def localTemplate (days destination : List Char) : List Char :=
  str "Create a " ++ days ++ str "-day travel plan for " ++ destination ++
  str ".\n\nFormat:\nDay 1:\n- Morning: [activities]\n- Afternoon: [activities]\n- Evening: [dining]\n- Stay: [accommodation]\n\n[Repeat for all " ++
  days ++
  str " days]\n\nTips: [transport, food, budget]\n\nIMPORTANT: \n- Write in English. Include all " ++
  days ++ str " days.\n- " ++ str "Do NOT ask any questions" ++
  str ". Do NOT request additional information.\n- Provide a complete plan directly without any follow-up questions."

/-- The verbose prompt template sent to the hosted model (the `else` branch
of `generate_plan`). -/
def cloudTemplate (days : List Char) : List Char :=
  str "Please provide a detailed travel plan in the following format. IMPORTANT: You must create a complete itinerary for ALL " ++
  days ++
  str " days. Do not stop early.\n\n## Travel Plan Overview\n- Destination: [Destination name]\n- Travel Days: " ++
  days ++ str " days (MUST include all " ++ days ++
  str " days)\n- Recommended Season: [Best travel time]\n\n## Daily Itinerary\n\n### Day 1: [Date/Theme]\n**Morning:**\n- [Specific activities and times]\n- [Attraction names and addresses]\n\n**Afternoon:**\n- [Specific activities and times]\n- [Attraction names and addresses]\n\n**Evening:**\n- [Specific activities and times]\n- [Restaurant recommendations]\n\n**Accommodation Recommendations:**\n- [Hotel/B&B names and price ranges]\n\n**Transportation Suggestions:**\n- [Transportation methods and routes]\n\n### Day 2: [Date/Theme]\n[Continue in the same format...]\n\n[Continue for ALL " ++
  days ++ str " days - Day 3, Day 4, Day 5, ... Day " ++ days ++
  str "]\n\n## Practical Information\n- **Local Transportation:** [Transportation suggestions]\n- **Food Recommendations:** [Local specialties and restaurants]\n- **Important Notes:** [Important tips]\n- **Budget Estimate:** [Daily/Total budget suggestions]\n\nCRITICAL REQUIREMENT: \n- You MUST provide a complete itinerary for all " ++
  days ++ str " days. Do not stop at Day 14 or any other day before Day " ++ days ++
  str ". Include Day 1 through Day " ++ days ++ str " in your response.\n- " ++
  str "Do NOT ask any questions" ++
  str ". Do NOT request additional information from the user.\n- Provide the complete travel plan directly without any follow-up questions or requests for clarification.\n- Write everything in English."

/-- The user prompt built by `generate_plan`: opening line with day count and
destination, optional budget/preference lines, then the mode-specific
template (`llm_mode` is the already-lowercased mode string). -/
def generate_plan_prompt (days destination budget preferences llm_mode : List Char) :
    List Char :=
  let base := str "Please create a detailed " ++ days ++ str "-day travel plan for " ++
    destination ++ str ".\n\n"
  let base := if budget.isEmpty then base else base ++ str "Budget: " ++ budget ++ str "\n\n"
  let base := if preferences.isEmpty then base
    else base ++ str "Preferences: " ++ preferences ++ str "\n\n"
  if llm_mode = str "local" then base ++ localTemplate days destination
  else base ++ cloudTemplate days

/-- The system prompt used for local-mode generation. -/
def localSystemPrompt : List Char :=
  str "You are a travel planner. Create concise, practical travel plans in English. Never ask questions - always provide complete plans directly."

/-! ### HTTP routes (`/api/search`, `/api/generate-plan`) -/

/-- The JSON body returned by the search route, with the HTTP status code.
Absent JSON keys are `none` / default values. -/
structure SearchRouteResponse where
  status : Nat
  success : Bool
  error : Option (List Char) := none
  summary : Option (List Char) := none
  references : List (List Char × List Char) := []
  using_api : Bool := false
  summary_error : Bool := false
deriving DecidableEq

/-- The summarization prompt of the search route: one `=== Source i ===`
block per enriched result, using extracted content when present and the
snippet otherwise. -/
def buildSummaryPrompt (query : List Char) (enriched : List EnrichedResult) : List Char :=
  let apos : Char := Char.ofNat 39
  let header := str "Please summarize the following search results about " ++ [apos] ++ query ++
    [apos] ++ str ", extract key information and organize it into a clear summary:\n\n"
  let blocks := enriched.enum.foldl (fun acc p =>
    acc ++ str "=== Source " ++ natToChars (p.1 + 1) ++ str " ===\n" ++
    str "Title: " ++ (if p.2.title.isEmpty then str "No title" else p.2.title) ++ str "\n" ++
    (match p.2.content with
     | some c => str "Content: " ++ c ++ str "\n\n"
     | none => str "Summary: " ++ (if p.2.snippet.isEmpty then str "No summary" else p.2.snippet) ++ str "\n\n")) header
  blocks ++ str "Please generate a concise and comprehensive summary based on the above information, including main points and key content. Write in English."

/-- The user-facing message assembled when the summarization call fails
(`except Exception as api_error` in the search route). -/
def summaryErrorMessage (e : List Char) : List Char :=
  str "AI summary is temporarily unavailable. " ++
  (if containsStr (str "401") e || containsStr (str "Unauthorized") e then
    str "API key is invalid or expired. Please check your DeepSeek API key configuration."
  else if containsStr (str "429") e then
    str "API rate limit exceeded. Please try again later."
  else if containsStr (str "timeout") (pyLower e) then
    str "Request timeout. Please try again."
  else str "Error: " ++ e.take 200)

/-- `app.search()` (the POST body of `/api/search`, after the CORS pre-flight
branch).  `body` is the parsed request (`none` for a falsy `request.json`,
otherwise the `query` field, itself defaulted to the empty string);
`summarize` is the behaviour of the hosted chat-completion call on the built
prompt (`Except` error carries `str(api_error)`). -/
def search_route (isJson : Bool) (body : Option (List Char))
    (apiKey engineId : List Char)
    (doRequest : List Char → Nat → ApiOutcome)
    (web : List Char → FetchOutcome) (parseMain : List Char → List Char)
    (summarize : List Char → Except (List Char) (List Char)) : SearchRouteResponse :=
  if !isJson then
    { status := 400, success := false, error := some (str "请求格式错误，需要JSON格式") }
  else
    match body with
    | none => { status := 400, success := false, error := some (str "请求数据为空") }
    | some query =>
      if query.isEmpty then
        { status := 400, success := false, error := some (str "请输入搜索关键词") }
      else if apiKey.isEmpty || engineId.isEmpty then
        { status := 400, success := false, error := some (str "未配置Google API，无法进行搜索") }
      else
        let search_results := google_search apiKey engineId doRequest query 5
        if search_results.isEmpty then
          { status := 404, success := false, error := some (str "未找到相关搜索结果") }
        else
          let max_extract := min search_results.length 3
          let enriched := (search_results.take max_extract).map (enrichResult web parseMain 1000)
          let summary_prompt := buildSummaryPrompt query enriched
          match summarize summary_prompt with
          | .ok summary =>
            { status := 200, success := true, summary := some summary,
              references := enriched.map (fun e => (e.title, e.link)), using_api := true }
          | .error e =>
            { status := 200, success := true,
              summary := some (summaryErrorMessage e ++ str "\n\nHere are the search results:"),
              references := enriched.map (fun e => (e.title, e.link)), using_api := true,
              summary_error := true }

/-- The parsed body of a `/api/generate-plan` request (`data.get` fields;
`llm_mode` is `none` when absent, in which case the process-wide mode
applies). -/
structure PlanBody where
  days : List Char
  destination : List Char
  budget : List Char
  preferences : List Char
  llm_mode : Option (List Char)
deriving DecidableEq

/-- The JSON body returned by the generate-plan route, with HTTP status. -/
structure PlanRouteResponse where
  status : Nat
  success : Bool
  error : Option (List Char) := none
  plan : Option (List Char) := none
  references : Option (List (List Char × List Char)) := none
deriving DecidableEq

/-- Outcome of the hosted chat-completion call in `generate_plan`: content
plus the finish reason, or an exception (including the synthetic
"API返回数据格式错误" for a malformed response). -/
inductive CloudOutcome where
  | ok (content : List Char) (finishReason : Option (List Char))
  | error (msg : List Char)
deriving DecidableEq

/-- The outer `except Exception` handler of `generate_plan`: translate the
message and answer HTTP 500. -/
def planOuterError (e : List Char) : PlanRouteResponse :=
  let msg :=
    if containsStr (str "401") e || containsStr (str "Unauthorized") e then
      str "API密钥无效，请检查您的DeepSeek API密钥配置"
    else if containsStr (str "429") e || containsStr (str "rate limit") (pyLower e) then
      str "API调用频率过高，请稍后再试"
    else if containsStr (str "timeout") (pyLower e) then
      str "请求超时，请检查网络连接或稍后重试"
    else if containsStr (str "Connection") e then
      str "网络连接失败，请检查您的网络连接"
    else e
  { status := 500, success := false, error := some (str "生成计划时出错：" ++ msg) }

/-- The `except Exception as api_error` handler of `generate_plan`: map
credential errors to 401, throttling to 429, and re-raise everything else
into the outer handler. -/
def planApiError (e : List Char) : PlanRouteResponse :=
  if containsStr (str "401") e || containsStr (str "Unauthorized") e then
    { status := 401, success := false,
      error := some (str "API密钥无效或已过期，请检查您的DeepSeek API密钥配置") }
  else if containsStr (str "429") e then
    { status := 429, success := false, error := some (str "API调用频率过高，请稍后再试") }
  else planOuterError e

/-- The note appended when the hosted response was truncated by the token
limit (`finish_reason == 'length'`). -/
def truncationNote (days : List Char) : List Char :=
  str "\n\n[Note: The response was truncated due to token limit. The itinerary may be incomplete. For longer trips (" ++
  days ++ str " days), please consider splitting into multiple requests or reducing the detail level.]"

/-- `app.generate_plan()` (the body of `/api/generate-plan`).  The
destination-information aggregator (`search_destination_info`) is in scope
for the route, so its behaviour is passed as `agg`; the route's prompt is
built without search context.  `localLLM`/`cloudLLM` are the behaviours of
the two backends on (prompt, system prompt) resp. prompt. -/
def generate_plan_route (isJson : Bool) (body : Option PlanBody) (LLM_MODE : List Char)
    (agg : List Char → List Char → List Char → List EnrichedResult)
    (localLLM : List Char → List Char → Except (List Char) (List Char))
    (cloudLLM : List Char → CloudOutcome) : PlanRouteResponse :=
  if !isJson then
    { status := 400, success := false, error := some (str "请求格式错误，需要JSON格式") }
  else
    match body with
    | none => { status := 400, success := false, error := some (str "请求数据为空") }
    | some b =>
      if b.days.isEmpty || b.destination.isEmpty then
        { status := 400, success := false, error := some (str "请填写旅游天数和目的地") }
      else
        let llm_mode := pyLower (b.llm_mode.getD LLM_MODE)
        let prompt := generate_plan_prompt b.days b.destination b.budget b.preferences llm_mode
        if llm_mode = str "local" then
          match localLLM prompt localSystemPrompt with
          | .ok plan =>
            { status := 200, success := true, plan := some plan, references := some [] }
          | .error e => planApiError e
        else
          match cloudLLM prompt with
          | .ok content finishReason =>
            let plan := if finishReason = some (str "length") then
              content ++ truncationNote b.days else content
            { status := 200, success := true, plan := some plan, references := some [] }
          | .error e => planApiError e

/-! ### Helper lemmas -/

/-- A pattern is a substring of any list extending it on the right. -/
theorem lc_here {pat : List Char} (s : List Char) : listContains pat (pat ++ s) :=
  ⟨[], s, rfl⟩

/-- Substring containment is preserved by prepending. -/
theorem lc_left (a : List Char) {pat b : List Char} (h : listContains pat b) :
    listContains pat (a ++ b) := by
  obtain ⟨p, s, hp⟩ := h
  exact ⟨a ++ p, s, by rw [← hp]; simp⟩

/-- Substring containment is preserved by appending. -/
theorem lc_right (b : List Char) {pat a : List Char} (h : listContains pat a) :
    listContains pat (a ++ b) := by
  obtain ⟨p, s, hp⟩ := h
  exact ⟨p, s ++ b, by rw [← hp]; simp⟩

/-! ### C4 -/

/-- C4: for every input text, chunk size and any two values of the overlap
parameter, `split_text_into_chunks` returns the same output: the overlap
parameter has no effect. -/
theorem split_text_into_chunks_overlap_inert (text : List Char) (chunk_size o₁ o₂ : Nat) :
    split_text_into_chunks text chunk_size o₁ = split_text_into_chunks text chunk_size o₂ := rfl

/-! ### C7 -/

/-- C7: `google_search` never raises (it is a total function in this model):
with an absent API key or search-engine identifier it returns `[]`; any
transport/HTTP/decoding error yields `[]`; on success it returns one result
per response item, with empty-string defaults for absent fields; and the
request is issued with the number of results capped at 10. -/
theorem google_search_error_handling (apiKey searchEngineId : List Char)
    (doRequest : List Char → Nat → ApiOutcome) (query : List Char) (num_results : Nat) :
    (apiKey = [] → google_search apiKey searchEngineId doRequest query num_results = [])
    ∧ (searchEngineId = [] → google_search apiKey searchEngineId doRequest query num_results = [])
    ∧ (doRequest query (min num_results 10) = .err →
        google_search apiKey searchEngineId doRequest query num_results = [])
    ∧ (doRequest query (min num_results 10) = .ok none →
        google_search apiKey searchEngineId doRequest query num_results = [])
    ∧ (∀ items, apiKey ≠ [] → searchEngineId ≠ [] →
        doRequest query (min num_results 10) = .ok (some items) →
        google_search apiKey searchEngineId doRequest query num_results
          = items.map fun it =>
              { title := it.title.getD [], snippet := it.snippet.getD [],
                link := it.link.getD [] }) := by
  unfold google_search
  refine ⟨?_, ?_, ?_, ?_, ?_⟩
  · intro h; subst h; simp
  · intro h; subst h; simp
  · intro h
    split
    · rfl
    · split
      · rfl
      · rw [h]
  · intro h
    split
    · rfl
    · split
      · rfl
      · rw [h]
  · intro items hk he h
    rw [if_neg (by simpa [List.isEmpty_iff] using hk),
      if_neg (by simpa [List.isEmpty_iff] using he), h]

/-- Witness for C7 at concrete inputs. -/
theorem google_search_error_handling_witness :
    google_search [] (str "eid") (fun _ _ => ApiOutcome.err) (str "q") 5 = []
    ∧ google_search (str "k") (str "eid") (fun _ _ => ApiOutcome.err) (str "q") 5 = []
    ∧ google_search (str "k") (str "eid")
        (fun _ _ => ApiOutcome.ok (some [⟨some (str "t"), none, some (str "l")⟩])) (str "q") 25
        = [{ title := str "t", snippet := [], link := str "l" }] := by
  refine ⟨?_, ?_, ?_⟩
  · exact (google_search_error_handling [] (str "eid") (fun _ _ => ApiOutcome.err)
      (str "q") 5).1 rfl
  · exact (google_search_error_handling (str "k") (str "eid") (fun _ _ => ApiOutcome.err)
      (str "q") 5).2.2.1 rfl
  · exact (google_search_error_handling (str "k") (str "eid")
      (fun _ _ => ApiOutcome.ok (some [⟨some (str "t"), none, some (str "l")⟩]))
      (str "q") 25).2.2.2.2 [⟨some (str "t"), none, some (str "l")⟩]
      (by decide) (by decide) rfl

/-- A pattern is a substring of any list extending it on the left. -/
theorem lc_end {pat : List Char} (p : List Char) : listContains pat (p ++ pat) :=
  ⟨p, [], by simp⟩

/-! ### C8 -/

/-- C8: for every destination, day count and mode string (covering both the
`local` and the hosted branch), with no budget and no preferences, the built
itinerary prompt contains the literal day count, the literal destination
name, and the instruction "Do NOT ask any questions". -/
theorem generate_plan_prompt_contains (days destination llm_mode : List Char) :
    listContains days (generate_plan_prompt days destination [] [] llm_mode)
    ∧ listContains destination (generate_plan_prompt days destination [] [] llm_mode)
    ∧ listContains (str "Do NOT ask any questions")
        (generate_plan_prompt days destination [] [] llm_mode) := by
  unfold generate_plan_prompt
  simp only [List.isEmpty_nil, if_true]
  by_cases h : llm_mode = str "local"
  · rw [if_pos h]
    unfold localTemplate
    exact ⟨lc_right _ (lc_right _ (lc_right _ (lc_right _ (lc_end _)))),
      lc_right _ (lc_right _ (lc_end _)),
      lc_left _ (lc_right _ (lc_end _))⟩
  · rw [if_neg h]
    unfold cloudTemplate
    exact ⟨lc_right _ (lc_right _ (lc_right _ (lc_right _ (lc_end _)))),
      lc_right _ (lc_right _ (lc_end _)),
      lc_left _ (lc_right _ (lc_end _))⟩

/-! ### C2 -/

/-- With no day marker on any line, the scanning loop collects nothing. -/
theorem parseLoop_no_marker (destination : List Char) (startDate : Int) :
    ∀ (lines : List (List Char)),
      (∀ line ∈ lines, findDayMarker (pyStrip line) = none) →
      ∀ evs, parseLoop destination startDate lines none evs = [] := by
  intro lines
  induction lines with
  | nil => intro _ evs; rfl
  | cons line rest ih =>
    intro h evs
    have hline := h line (List.mem_cons_self _ _)
    unfold parseLoop
    simp only [hline, pyTruthyDay, Bool.false_and, Bool.false_eq_true, if_false, ite_false]
    exact ih (fun l hl => h l (List.mem_cons_of_mem _ hl)) evs

/-- C2: for every plan text with no `Day N:` marker on any line, the exporter
returns exactly one fallback event, named `Travel Plan: {destination}`, on
the start date from 09:00 to 18:00, whose description is the raw plan text
truncated to 1000 characters; and for every plan text whatsoever the
returned calendar has at least one event. -/
theorem parse_plan_to_ics_fallback (planText destination : List Char) (startDate : Int) :
    ((∀ line ∈ splitNLChar planText, findDayMarker (pyStrip line) = none) →
      parse_plan_to_ics planText destination startDate
        = [{ name := str "Travel Plan: " ++ destination
             eventBegin := (startDate, 9, 0)
             eventEnd := (startDate, 18, 0)
             description := planText.take 1000 }])
    ∧ 1 ≤ (parse_plan_to_ics planText destination startDate).length := by
  constructor
  · intro h
    simp only [parse_plan_to_ics]
    rw [parseLoop_no_marker destination startDate (splitNLChar planText) h []]
    simp [fallbackEvent]
  · simp only [parse_plan_to_ics]
    rcases hl : parseLoop destination startDate (splitNLChar planText) none [] with _ | ⟨e, es⟩
    · simp
    · simp

/-- Witness for C2 at a concrete marker-free plan text. -/
theorem parse_plan_to_ics_fallback_witness :
    parse_plan_to_ics (str "just a note") (str "Goa") 7
      = [{ name := str "Travel Plan: " ++ str "Goa"
           eventBegin := (7, 9, 0)
           eventEnd := (7, 18, 0)
           description := (str "just a note").take 1000 }]
    ∧ 1 ≤ (parse_plan_to_ics (str "just a note") (str "Goa") 7).length :=
  ⟨(parse_plan_to_ics_fallback (str "just a note") (str "Goa") 7).1 (by decide),
   (parse_plan_to_ics_fallback (str "just a note") (str "Goa") 7).2⟩

/-! ### C10 -/

/-- C10: the generate-plan route never consults the destination-information
aggregator (its response is independent of the aggregator's behaviour), and
whenever the selected language-model backend succeeds — in either mode — it
answers HTTP 200 with `references = []`, the plan being the backend's output
on the prompt built by `generate_plan_prompt` alone (no search context). -/
theorem generate_plan_route_no_search (b : PlanBody) (LLM_MODE : List Char)
    (agg agg' : List Char → List Char → List Char → List EnrichedResult)
    (localLLM : List Char → List Char → Except (List Char) (List Char))
    (cloudLLM : List Char → CloudOutcome)
    (hdays : b.days ≠ []) (hdest : b.destination ≠ []) :
    generate_plan_route true (some b) LLM_MODE agg localLLM cloudLLM
      = generate_plan_route true (some b) LLM_MODE agg' localLLM cloudLLM
    ∧ (∀ p, pyLower (b.llm_mode.getD LLM_MODE) = str "local" →
        localLLM (generate_plan_prompt b.days b.destination b.budget b.preferences
            (pyLower (b.llm_mode.getD LLM_MODE))) localSystemPrompt = .ok p →
        generate_plan_route true (some b) LLM_MODE agg localLLM cloudLLM
          = { status := 200, success := true, plan := some p, references := some [] })
    ∧ (∀ p finishReason, pyLower (b.llm_mode.getD LLM_MODE) ≠ str "local" →
        cloudLLM (generate_plan_prompt b.days b.destination b.budget b.preferences
            (pyLower (b.llm_mode.getD LLM_MODE))) = .ok p finishReason →
        ∃ planOut,
          generate_plan_route true (some b) LLM_MODE agg localLLM cloudLLM
            = { status := 200, success := true, plan := some planOut,
                references := some [] }) := by
  have hde : (b.days.isEmpty || b.destination.isEmpty) = false := by
    simp [List.isEmpty_iff, hdays, hdest]
  refine ⟨rfl, ?_, ?_⟩
  · intro p hmode hllm
    rw [hmode] at hllm
    simp [generate_plan_route, hde, hmode, hllm]
  · intro p finishReason hmode hllm
    refine ⟨if finishReason = some (str "length") then p ++ truncationNote b.days else p, ?_⟩
    simp [generate_plan_route, hde, hmode, hllm]

/-- Witness for C10 at concrete inputs (local mode, constant backends). -/
theorem generate_plan_route_no_search_witness :
    generate_plan_route true (some ⟨str "3", str "Goa", [], [], some (str "Local")⟩)
        (str "cloud") (fun _ _ _ => []) (fun _ _ => .ok (str "PLAN")) (fun _ => .error [])
      = { status := 200, success := true, plan := some (str "PLAN"),
          references := some [] } :=
  (generate_plan_route_no_search ⟨str "3", str "Goa", [], [], some (str "Local")⟩
    (str "cloud") (fun _ _ _ => []) (fun _ _ _ => [])
    (fun _ _ => .ok (str "PLAN")) (fun _ => .error [])
    (by decide) (by decide)).2.1 (str "PLAN") (by decide) rfl

/-! ### Deduplication lemmas -/

/-- Deduplication returns a sublist of its input. -/
theorem dedupByLink_sublist : ∀ (l : List SearchResult) (seen : List (List Char)),
    (dedupByLink l seen).Sublist l := by
  intro l
  induction l with
  | nil => intro seen; simp [dedupByLink]
  | cons r rest ih =>
    intro seen
    unfold dedupByLink
    split
    · exact (ih seen).trans (List.sublist_cons_self _ _)
    · exact (ih (r.link :: seen)).cons₂ r

/-- No deduplicated entry carries a link from `seen`, and the links of the
result are pairwise distinct. -/
theorem dedupByLink_nodup : ∀ (l : List SearchResult) (seen : List (List Char)),
    (∀ r ∈ dedupByLink l seen, r.link ∉ seen)
    ∧ ((dedupByLink l seen).map (fun r => r.link)).Nodup := by
  intro l
  induction l with
  | nil => intro seen; simp [dedupByLink]
  | cons r rest ih =>
    intro seen
    unfold dedupByLink
    split
    · exact ih seen
    · rename_i hnew
      refine ⟨?_, ?_⟩
      · intro x hx
        rcases List.mem_cons.1 hx with h | h
        · subst h; exact hnew
        · intro hs
          exact (ih (r.link :: seen)).1 x h (List.mem_cons_of_mem _ hs)
      · rw [List.map_cons, List.nodup_cons]
        refine ⟨?_, (ih (r.link :: seen)).2⟩
        intro hmem
        obtain ⟨x, hx, hlx⟩ := List.mem_map.1 hmem
        exact (ih (r.link :: seen)).1 x hx (hlx ▸ List.mem_cons_self _ _)

/-- Every deduplicated entry is the first occurrence of its link in the
input list. -/
theorem dedupByLink_find : ∀ (l : List SearchResult) (seen : List (List Char)),
    ∀ r ∈ dedupByLink l seen, l.find? (fun x => x.link == r.link) = some r := by
  intro l
  induction l with
  | nil => intro seen r hr; simp [dedupByLink] at hr
  | cons x rest ih =>
    intro seen r hr
    unfold dedupByLink at hr
    by_cases hseen : x.link ∈ seen
    · rw [if_pos hseen] at hr
      have hnotin := (dedupByLink_nodup rest seen).1 r hr
      have hne : (x.link == r.link) = false := by
        simp only [beq_eq_false_iff_ne, ne_eq]
        intro he
        exact hnotin (he ▸ hseen)
      rw [List.find?_cons, hne]
      exact ih seen r hr
    · rw [if_neg hseen] at hr
      rcases List.mem_cons.1 hr with h | h
      · subst h
        rw [List.find?_cons, beq_self_eq_true]
      · have hnotin := (dedupByLink_nodup rest (x.link :: seen)).1 r h
        have hne : (x.link == r.link) = false := by
          simp only [beq_eq_false_iff_ne, ne_eq]
          intro he
          exact hnotin (he ▸ List.mem_cons_self _ _)
        rw [List.find?_cons, hne]
        exact ih (x.link :: seen) r h

/-- Every input link is represented in the deduplicated output (unless it was
already in `seen`). -/
theorem dedupByLink_complete : ∀ (l : List SearchResult) (seen : List (List Char)),
    ∀ r ∈ l, (∃ x ∈ dedupByLink l seen, x.link = r.link) ∨ r.link ∈ seen := by
  intro l
  induction l with
  | nil => intro seen r hr; simp at hr
  | cons x rest ih =>
    intro seen r hr
    unfold dedupByLink
    rcases List.mem_cons.1 hr with h | h
    · subst h
      by_cases hseen : r.link ∈ seen
      · exact Or.inr hseen
      · rw [if_neg hseen]
        exact Or.inl ⟨r, List.mem_cons_self _ _, rfl⟩
    · by_cases hseen : x.link ∈ seen
      · rw [if_pos hseen]
        exact ih seen r h
      · rw [if_neg hseen]
        rcases ih (x.link :: seen) r h with ⟨y, hy, hly⟩ | hmem
        · exact Or.inl ⟨y, List.mem_cons_of_mem _ hy, hly⟩
        · rcases List.mem_cons.1 hmem with he | hs
          · exact Or.inl ⟨x, List.mem_cons_self _ _, he.symm⟩
          · exact Or.inr hs

/-- An empty deduplication means an empty input. -/
theorem dedupByLink_nil_iff (l : List SearchResult) :
    dedupByLink l [] = [] → l = [] := by
  cases l with
  | nil => intro _; rfl
  | cons r rest =>
    intro h
    unfold dedupByLink at h
    simp at h

/-- Enrichment never changes the underlying search result. -/
theorem enrichResult_toSearchResult (web : List Char → FetchOutcome)
    (parseMain : List Char → List Char) (n : Nat) (r : SearchResult) :
    (enrichResult web parseMain n r).toSearchResult = r := by
  unfold enrichResult
  split
  · split <;> rfl
  · rfl

/-- A failed extraction leaves the enriched result without content. -/
theorem enrichResult_content_none (web : List Char → FetchOutcome)
    (parseMain : List Char → List Char) (n : Nat) (r : SearchResult)
    (h : extract_webpage_content (web r.link) parseMain n = none) :
    (enrichResult web parseMain n r).content = none := by
  unfold enrichResult
  rw [h]

/-! ### C5 -/

/-- C5: for every behaviour of the underlying search and extraction, the
aggregator's output has at most 5 entries, its links are pairwise distinct
(one entry per retained link), each entry is the first-seen result for its
link (title and snippet included) and entries appear in first-seen order
(the underlying results form a sublist of the gathered results); when at
most 5 distinct links were gathered, every gathered link is represented;
and an entry whose page extraction failed is still present, carrying no
extracted content (hence its original snippet). -/
theorem search_destination_info_dedup (gs : List Char → List SearchResult)
    (web : List Char → FetchOutcome) (parseMain : List Char → List Char)
    (destination days preferences : List Char) :
    (search_destination_info gs web parseMain destination days preferences).length ≤ 5
    ∧ ((search_destination_info gs web parseMain destination days preferences).map
        (fun e => e.link)).Nodup
    ∧ (∀ e ∈ search_destination_info gs web parseMain destination days preferences,
        (aggregatorResults gs destination days preferences).find?
          (fun x => x.link == e.link) = some e.toSearchResult)
    ∧ ((search_destination_info gs web parseMain destination days preferences).map
        (fun e => e.toSearchResult)).Sublist
        (aggregatorResults gs destination days preferences)
    ∧ ((dedupByLink (aggregatorResults gs destination days preferences) []).length ≤ 5 →
        ∀ r ∈ aggregatorResults gs destination days preferences,
          ∃ e ∈ search_destination_info gs web parseMain destination days preferences,
            e.link = r.link)
    ∧ (∀ e ∈ search_destination_info gs web parseMain destination days preferences,
        extract_webpage_content (web e.link) parseMain 1500 = none →
        e.content = none) := by
  unfold search_destination_info
  by_cases hempty : (dedupByLink (aggregatorResults gs destination days preferences) []).isEmpty
  · rw [if_pos hempty]
    have hnil : aggregatorResults gs destination days preferences = [] :=
      dedupByLink_nil_iff _ (List.isEmpty_iff.1 hempty)
    simp [hnil]
  · rw [if_neg hempty]
    have hmap_link :
        ((dedupByLink (aggregatorResults gs destination days preferences) []).take 5
          |>.map (enrichResult web parseMain 1500)).map (fun e => e.link)
        = ((dedupByLink (aggregatorResults gs destination days preferences) []).take 5).map
            (fun r => r.link) := by
      rw [List.map_map]
      refine List.map_congr_left fun r _ => ?_
      show (enrichResult web parseMain 1500 r).toSearchResult.link = r.link
      rw [enrichResult_toSearchResult]
    have hmap_res :
        ((dedupByLink (aggregatorResults gs destination days preferences) []).take 5
          |>.map (enrichResult web parseMain 1500)).map (fun e => e.toSearchResult)
        = (dedupByLink (aggregatorResults gs destination days preferences) []).take 5 := by
      rw [List.map_map]
      have : ((fun e : EnrichedResult => e.toSearchResult) ∘ enrichResult web parseMain 1500)
          = id := by
        funext r
        exact enrichResult_toSearchResult web parseMain 1500 r
      rw [this, List.map_id]
    refine ⟨?_, ?_, ?_, ?_, ?_, ?_⟩
    · rw [List.length_map]
      exact List.length_take_le 5 _
    · rw [hmap_link, List.map_take]
      exact ((List.take_sublist 5 _).nodup
        ((dedupByLink_nodup (aggregatorResults gs destination days preferences) []).2))
    · intro e he
      obtain ⟨r, hr, hre⟩ := List.mem_map.1 he
      have hru : r ∈ dedupByLink (aggregatorResults gs destination days preferences) [] :=
        List.mem_of_mem_take hr
      have := dedupByLink_find (aggregatorResults gs destination days preferences) [] r hru
      have hts : e.toSearchResult = r := by rw [← hre, enrichResult_toSearchResult]
      have hlk : e.link = r.link := by rw [show e.link = e.toSearchResult.link from rfl, hts]
      rw [hlk, hts]
      exact this
    · rw [hmap_res]
      exact (List.take_sublist 5 _).trans (dedupByLink_sublist _ [])
    · intro hlen r hr
      rcases dedupByLink_complete (aggregatorResults gs destination days preferences) [] r hr
        with ⟨x, hx, hlx⟩ | habs
      · refine ⟨enrichResult web parseMain 1500 x, ?_, ?_⟩
        · exact List.mem_map_of_mem _ (by rw [List.take_of_length_le hlen]; exact hx)
        · rw [show (enrichResult web parseMain 1500 x).link
              = (enrichResult web parseMain 1500 x).toSearchResult.link from rfl,
            enrichResult_toSearchResult]
          exact hlx
      · simp at habs
    · intro e he hext
      obtain ⟨r, hr, hre⟩ := List.mem_map.1 he
      have hlk : e.link = r.link := by
        rw [show e.link = e.toSearchResult.link from rfl, ← hre, enrichResult_toSearchResult]
      rw [← hre]
      exact enrichResult_content_none web parseMain 1500 r (by rw [← hlk]; exact hext)

/-- Witness for C5: two queries sharing a link, one failing extraction. -/
theorem search_destination_info_dedup_witness :
    (dedupByLink (aggregatorResults
        (fun _ => [{ title := str "t1", snippet := str "s1", link := str "L" },
                   { title := str "t2", snippet := str "s2", link := str "L" }])
        (str "Goa") (str "3") []) []).length ≤ 5
    ∧ ∃ e ∈ search_destination_info
        (fun _ => [{ title := str "t1", snippet := str "s1", link := str "L" },
                   { title := str "t2", snippet := str "s2", link := str "L" }])
        (fun _ => FetchOutcome.netError) id (str "Goa") (str "3") [],
        e.link = str "L" := by
  refine ⟨by decide, ?_⟩
  exact (search_destination_info_dedup
    (fun _ => [{ title := str "t1", snippet := str "s1", link := str "L" },
               { title := str "t2", snippet := str "s2", link := str "L" }])
    (fun _ => FetchOutcome.netError) id (str "Goa") (str "3") []).2.2.2.2.1
    (by decide) { title := str "t1", snippet := str "s1", link := str "L" } (by decide)

/-! ### C6 -/

/-- C6: for every fetched page whose HTTP status is 403 or 404,
`extract_webpage_content` returns `none` (and, being a total function of the
fetch outcome, never raises); and the aggregator still includes a result
whose extraction failed, carrying its original title/snippet and no
extracted content. -/
theorem extract_webpage_content_blocked (status : Nat) (pageText : List Char)
    (parseMain : List Char → List Char) (max_length : Nat)
    (hstatus : status = 403 ∨ status = 404) :
    extract_webpage_content (.response status pageText) parseMain max_length = none
    ∧ ∀ (gs : List Char → List SearchResult) (web : List Char → FetchOutcome)
        (destination days preferences : List Char) (r : SearchResult),
        r ∈ (dedupByLink (aggregatorResults gs destination days preferences) []).take 5 →
        extract_webpage_content (web r.link) parseMain 1500 = none →
        ∃ e ∈ search_destination_info gs web parseMain destination days preferences,
          e.title = r.title ∧ e.snippet = r.snippet ∧ e.link = r.link ∧ e.content = none := by
  constructor
  · rcases hstatus with h | h <;> subst h <;> simp [extract_webpage_content]
  · intro gs web destination days preferences r hr hext
    have hne : ¬(dedupByLink (aggregatorResults gs destination days preferences) []).isEmpty := by
      rcases hd : dedupByLink (aggregatorResults gs destination days preferences) [] with _ | _
      · rw [hd] at hr; simp at hr
      · simp
    refine ⟨enrichResult web parseMain 1500 r, ?_, ?_, ?_, ?_, ?_⟩
    · unfold search_destination_info
      rw [if_neg hne]
      exact List.mem_map_of_mem _ hr
    · show (enrichResult web parseMain 1500 r).toSearchResult.title = r.title
      rw [enrichResult_toSearchResult]
    · show (enrichResult web parseMain 1500 r).toSearchResult.snippet = r.snippet
      rw [enrichResult_toSearchResult]
    · show (enrichResult web parseMain 1500 r).toSearchResult.link = r.link
      rw [enrichResult_toSearchResult]
    · exact enrichResult_content_none web parseMain 1500 r hext

/-- Witness for C6 with a concrete 403 fetch. -/
theorem extract_webpage_content_blocked_witness :
    extract_webpage_content (.response 403 (str "<html>x</html>")) id 2000 = none
    ∧ ∃ e ∈ search_destination_info
        (fun _ => [{ title := str "t", snippet := str "s", link := str "L" }])
        (fun _ => FetchOutcome.response 403 (str "<html>x</html>")) id
        (str "Goa") (str "3") [],
        e.title = str "t" ∧ e.snippet = str "s" ∧ e.link = str "L" ∧ e.content = none := by
  have h := extract_webpage_content_blocked 403 (str "<html>x</html>") id 2000 (Or.inl rfl)
  refine ⟨h.1, ?_⟩
  obtain ⟨e, he, h1, h2, h3, h4⟩ := h.2
    (fun _ => [{ title := str "t", snippet := str "s", link := str "L" }])
    (fun _ => FetchOutcome.response 403 (str "<html>x</html>"))
    (str "Goa") (str "3") [] { title := str "t", snippet := str "s", link := str "L" }
    (by decide) (by decide)
  exact ⟨e, he, h1, h2, h3, h4⟩

/-! ### C9 -/

/-- C9: whenever the search finds at least one result but the summarization
call fails, the search route still answers HTTP 200 with `success = true`,
`summary_error = true`, an explanatory summary message, and a references
list with one (title, link) entry per retained (first min(len,3)) search
result — the summarization failure never fails the request. -/
theorem search_route_summary_error (query apiKey engineId : List Char)
    (doRequest : List Char → Nat → ApiOutcome)
    (web : List Char → FetchOutcome) (parseMain : List Char → List Char)
    (summarize : List Char → Except (List Char) (List Char)) (e : List Char)
    (hq : query ≠ []) (hk : apiKey ≠ []) (he : engineId ≠ [])
    (hres : google_search apiKey engineId doRequest query 5 ≠ [])
    (hsum : summarize (buildSummaryPrompt query
        (((google_search apiKey engineId doRequest query 5).take
            (min (google_search apiKey engineId doRequest query 5).length 3)).map
          (enrichResult web parseMain 1000))) = .error e) :
    search_route true (some query) apiKey engineId doRequest web parseMain summarize
      = { status := 200, success := true,
          summary := some (summaryErrorMessage e ++ str "\n\nHere are the search results:"),
          references := ((google_search apiKey engineId doRequest query 5).take 3).map
            (fun r => (r.title, r.link)),
          using_api := true, summary_error := true } := by
  have htake : (google_search apiKey engineId doRequest query 5).take
      (min (google_search apiKey engineId doRequest query 5).length 3)
      = (google_search apiKey engineId doRequest query 5).take 3 := by
    rcases Nat.le_total (google_search apiKey engineId doRequest query 5).length 3 with h | h
    · rw [Nat.min_eq_left h, List.take_of_length_le (le_refl _), List.take_of_length_le h]
    · rw [Nat.min_eq_right h]
  have hrefs :
      (((google_search apiKey engineId doRequest query 5).take 3).map
        (enrichResult web parseMain 1000)).map (fun e => (e.title, e.link))
      = ((google_search apiKey engineId doRequest query 5).take 3).map
          (fun r => (r.title, r.link)) := by
    rw [List.map_map]
    refine List.map_congr_left fun r _ => ?_
    show ((enrichResult web parseMain 1000 r).toSearchResult.title,
      (enrichResult web parseMain 1000 r).toSearchResult.link) = (r.title, r.link)
    rw [enrichResult_toSearchResult]
  rw [htake] at hsum
  simp only [search_route, Bool.not_true, Bool.false_eq_true, if_false, ite_false,
    List.isEmpty_iff, hq, hk, he, hres, if_false, ite_false, Bool.or_self, htake, hsum,
    hrefs]
  simp [List.isEmpty_iff, hq, hk, he, hres, htake, hsum, hrefs]

/-- Witness for C9 with a concrete one-result search and failing model. -/
theorem search_route_summary_error_witness :
    search_route true (some (str "q")) (str "k") (str "eid")
        (fun _ _ => ApiOutcome.ok (some [⟨some (str "t"), some (str "s"), some (str "L")⟩]))
        (fun _ => FetchOutcome.netError) id (fun _ => .error (str "boom"))
      = { status := 200, success := true,
          summary := some (summaryErrorMessage (str "boom") ++
            str "\n\nHere are the search results:"),
          references := [(str "t", str "L")],
          using_api := true, summary_error := true } := by
  have h := search_route_summary_error (str "q") (str "k") (str "eid")
    (fun _ _ => ApiOutcome.ok (some [⟨some (str "t"), some (str "s"), some (str "L")⟩]))
    (fun _ => FetchOutcome.netError) id (fun _ => .error (str "boom")) (str "boom")
    (by decide) (by decide) (by decide) (by decide) rfl
  rw [h]
  decide

/-! ### C1: structured day-marker inputs -/

/-- Joining lines with newlines (the inverse of Python `split('\n')` on
newline-free lines). -/
def joinNL : List (List Char) → List Char
  | [] => []
  | [x] => x
  | x :: y :: rest => x ++ '\n' :: joinNL (y :: rest)

/-- A well-formed bullet line for the exporter: a single line which holds no
day marker and whose stripped form starts with `**`, `-`, or `*`. -/
def goodBullet (b : List Char) : Prop :=
  findDayMarker (pyStrip b) = none ∧ '\n' ∉ b ∧
    ((str "**").isPrefixOf (pyStrip b) = true ∨ (str "-").isPrefixOf (pyStrip b) = true ∨
      (str "*").isPrefixOf (pyStrip b) = true)

instance (b : List Char) : Decidable (goodBullet b) := by
  unfold goodBullet; infer_instance

/-- A newline-free input only extends the accumulated line. -/
theorem splitNLCharAux_no_nl : ∀ (l cur : List Char), '\n' ∉ l →
    splitNLCharAux l cur = [cur.reverse ++ l] := by
  intro l
  induction l with
  | nil => intro cur _; simp [splitNLCharAux]
  | cons c rest ih =>
    intro cur h
    have hc : ¬c = '\n' := fun he => h (he ▸ List.mem_cons_self _ _)
    have hrest : '\n' ∉ rest := fun hm => h (List.mem_cons_of_mem _ hm)
    unfold splitNLCharAux
    rw [if_neg hc, ih (c :: cur) hrest]
    simp

/-- Splitting a newline-free text yields that single line. -/
theorem splitNLChar_no_nl (l : List Char) (h : '\n' ∉ l) : splitNLChar l = [l] := by
  unfold splitNLChar
  rw [splitNLCharAux_no_nl l [] h]
  rfl

/-- The accumulator run peels off a leading newline-free line. -/
theorem splitNLCharAux_append : ∀ (x r cur : List Char), '\n' ∉ x →
    splitNLCharAux (x ++ '\n' :: r) cur = (cur.reverse ++ x) :: splitNLCharAux r [] := by
  intro x
  induction x with
  | nil =>
    intro r cur _
    show splitNLCharAux ('\n' :: r) cur = (cur.reverse ++ []) :: splitNLCharAux r []
    unfold splitNLCharAux
    rw [if_pos rfl]
    simp
    cases r <;> rfl
  | cons c rest ih =>
    intro r cur h
    have hc : ¬c = '\n' := fun he => h (he ▸ List.mem_cons_self _ _)
    have hrest : '\n' ∉ rest := fun hm => h (List.mem_cons_of_mem _ hm)
    show splitNLCharAux (c :: (rest ++ '\n' :: r)) cur = (cur.reverse ++ c :: rest) :: splitNLCharAux r []
    unfold splitNLCharAux
    rw [if_neg hc, ih r (c :: cur) hrest]
    simp
    cases r <;> rfl

/-- Splitting peels off a leading newline-free line. -/
theorem splitNLChar_append (x r : List Char) (h : '\n' ∉ x) :
    splitNLChar (x ++ '\n' :: r) = x :: splitNLChar r := by
  unfold splitNLChar
  rw [splitNLCharAux_append x r [] h]
  rfl

/-- Splitting is a left inverse of joining newline-free lines. -/
theorem splitNLChar_joinNL : ∀ (ls : List (List Char)), ls ≠ [] →
    (∀ l ∈ ls, '\n' ∉ l) → splitNLChar (joinNL ls) = ls := by
  intro ls
  induction ls with
  | nil => intro h; exact absurd rfl h
  | cons x rest ih =>
    intro _ h
    cases rest with
    | nil => exact splitNLChar_no_nl x (h x (List.mem_cons_self _ _))
    | cons y t =>
      show splitNLChar (x ++ '\n' :: joinNL (y :: t)) = x :: (y :: t)
      rw [splitNLChar_append x _ (h x (List.mem_cons_self _ _)),
        ih (by simp) (fun l hl => h l (List.mem_cons_of_mem _ hl))]

/-- A successful `isPrefixOf` on a cons exposes the head. -/
theorem isPrefixOf_cons_elim {c : Char} {cs l : List Char}
    (h : (c :: cs).isPrefixOf l = true) : ∃ t, l = c :: t := by
  cases l with
  | nil => simp [List.isPrefixOf] at h
  | cons b bs =>
    refine ⟨bs, ?_⟩
    have : c = b := by
      by_contra hne
      simp [List.isPrefixOf, List.cons_prefix_cons] at h
      exact hne h.1
    rw [this]

/-- A good bullet strips to a line headed by `-` or `*`. -/
theorem goodBullet_shape {b : List Char} (h : goodBullet b) :
    ∃ t, (pyStrip b = '-' :: t ∨ pyStrip b = '*' :: t) := by
  rcases h.2.2 with hp | hp | hp
  · obtain ⟨t, ht⟩ := isPrefixOf_cons_elim hp
    exact ⟨t, Or.inr ht⟩
  · obtain ⟨t, ht⟩ := isPrefixOf_cons_elim hp
    exact ⟨t, Or.inl ht⟩
  · obtain ⟨t, ht⟩ := isPrefixOf_cons_elim hp
    exact ⟨t, Or.inr ht⟩

/-- Scanning a run of good bullet lines under an active nonzero day only
accumulates their stripped forms. -/
theorem parseLoop_bullets (destination : List Char) (startDate : Int) (d : Nat) (hd : d ≠ 0) :
    ∀ (bs : List (List Char)), (∀ b ∈ bs, goodBullet b) →
    ∀ (rest : List (List Char)) (evs : List (List Char)),
      parseLoop destination startDate (bs ++ rest) (some d) evs
        = parseLoop destination startDate rest (some d) (evs ++ bs.map pyStrip) := by
  intro bs
  induction bs with
  | nil => intro _ rest evs; simp
  | cons b bs' ih =>
    intro h rest evs
    have hb := h b (List.mem_cons_self _ _)
    obtain ⟨t, ht⟩ := goodBullet_shape hb
    have hmarker := hb.1
    have htruthy : pyTruthyDay (some d) = true := by
      simp [pyTruthyDay, hd]
    have hempty : (pyStrip b).isEmpty = false := by
      rcases ht with ht | ht <;> rw [ht] <;> rfl
    have hhash : (['#'].isPrefixOf (pyStrip b)) = false := by
      rcases ht with ht | ht <;> rw [ht] <;> rfl
    have hbullet : ((str "**").isPrefixOf (pyStrip b) || (str "-").isPrefixOf (pyStrip b)
        || (str "*").isPrefixOf (pyStrip b)) = true := by
      rcases hb.2.2 with hp | hp | hp <;> simp [hp]
    show parseLoop destination startDate (b :: (bs' ++ rest)) (some d) evs = _
    rw [parseLoop]
    simp only [hmarker, htruthy, hempty, hhash, Bool.not_false, Bool.and_true, Bool.true_and,
      hbullet, if_true, ite_true]
    rw [ih (fun x hx => h x (List.mem_cons_of_mem _ hx)) rest (evs ++ [pyStrip b]),
      List.append_assoc]
    rfl

/-- Scanning a sequence of day blocks (marker line followed by its non-empty
bullet lines) flushes the pending day and emits one event per block, from the
parsed day number of each marker. -/
theorem parseLoop_blocks (destination : List Char) (startDate : Int) :
    ∀ (tblocks : List (Nat × List Char × List (List Char))),
      (∀ blk ∈ tblocks, blk.1 ≠ 0 ∧ findDayMarker (pyStrip blk.2.1) = some blk.1 ∧
        blk.2.2 ≠ [] ∧ ∀ b ∈ blk.2.2, goodBullet b) →
      ∀ (cur : Option Nat) (evs : List (List Char)),
        parseLoop destination startDate (tblocks.flatMap (fun blk => blk.2.1 :: blk.2.2)) cur evs
          = (match cur with
             | some d => if evs.isEmpty then [] else [mkDayEvent destination startDate d evs]
             | none => []) ++
            tblocks.map (fun blk => mkDayEvent destination startDate blk.1 (blk.2.2.map pyStrip)) := by
  intro tblocks
  induction tblocks with
  | nil =>
    intro _ cur evs
    simp only [List.flatMap_nil, List.map_nil, List.append_nil]
    cases cur <;> rfl
  | cons blk rest ih =>
    intro h cur evs
    obtain ⟨hd0, hmark, hbne, hgood⟩ := h blk (List.mem_cons_self _ _)
    rw [List.flatMap_cons, List.cons_append]
    rw [parseLoop.eq_def]
    simp only [hmark]
    rw [parseLoop_bullets destination startDate blk.1 hd0 blk.2.2 hgood _ []]
    rw [ih (fun x hx => h x (List.mem_cons_of_mem _ hx)) (some blk.1)]
    have hmapne : (blk.2.2.map pyStrip).isEmpty = false := by
      rcases hb : blk.2.2 with _ | _
      · exact absurd hb hbne
      · rfl
    simp only [List.nil_append, hmapne, Bool.false_eq_true, if_false, ite_false, List.map_cons]
    rfl

/-- Numbering day blocks with consecutive day numbers starting at `k`. -/
def numberBlocks : Nat → List (List Char × List (List Char)) →
    List (Nat × List Char × List (List Char))
  | _, [] => []
  | k, blk :: rest => (k, blk.1, blk.2) :: numberBlocks (k + 1) rest

theorem numberBlocks_length : ∀ (k : Nat) (blocks : List (List Char × List (List Char))),
    (numberBlocks k blocks).length = blocks.length := by
  intro k blocks
  induction blocks generalizing k with
  | nil => rfl
  | cons blk rest ih => simp [numberBlocks, ih]

theorem numberBlocks_flatMap : ∀ (k : Nat) (blocks : List (List Char × List (List Char))),
    (numberBlocks k blocks).flatMap (fun blk => blk.2.1 :: blk.2.2)
      = blocks.flatMap (fun blk => blk.1 :: blk.2) := by
  intro k blocks
  induction blocks generalizing k with
  | nil => rfl
  | cons blk rest ih => simp [numberBlocks, ih]

theorem numberBlocks_mem : ∀ (k : Nat) (blocks : List (List Char × List (List Char)))
    (blk : Nat × List Char × List (List Char)), blk ∈ numberBlocks k blocks →
    ∃ i, ∃ (hi : i < blocks.length), blk = (k + i, blocks[i].1, blocks[i].2) := by
  intro k blocks
  induction blocks generalizing k with
  | nil => intro blk h; simp [numberBlocks] at h
  | cons b rest ih =>
    intro blk h
    rcases List.mem_cons.1 h with he | hm
    · exact ⟨0, by simp, by simpa using he⟩
    · obtain ⟨i, hi, hblk⟩ := ih (k + 1) blk hm
      refine ⟨i + 1, by simpa using hi, ?_⟩
      rw [hblk]
      simp only [List.getElem_cons_succ]
      congr 1
      omega

theorem numberBlocks_getElem : ∀ (k : Nat) (blocks : List (List Char × List (List Char)))
    (i : Nat) (hi : i < blocks.length) (hi₂ : i < (numberBlocks k blocks).length),
    (numberBlocks k blocks)[i] = (k + i, blocks[i].1, blocks[i].2) := by
  intro k blocks
  induction blocks generalizing k with
  | nil => intro i hi _; simp at hi
  | cons b rest ih =>
    intro i hi hi₂
    cases i with
    | zero => simp [numberBlocks]
    | succ j =>
      have hj : j < rest.length := by simpa using hi
      have hj₂ : j < (numberBlocks (k + 1) rest).length := by
        rw [numberBlocks_length]
        exact hj
      show (numberBlocks (k + 1) rest)[j] = _
      rw [ih (k + 1) j hj hj₂]
      simp only [List.getElem_cons_succ]
      congr 1
      omega

/-! ### C1: main theorem -/

/-- C1: for every plan text made of blocks `Day 1:` … `Day N:` (each marker
line followed by at least one bullet/emphasis line), and every destination
and start date, the exporter returns exactly N events; the k-th event is
named `Day k: {destination}`, spans 09:00–18:00 on `start_date + (k-1)`
days, and its description is the newline-joined accumulated (stripped)
bullet lines truncated to 1000 characters. -/
theorem parse_plan_to_ics_day_events (destination : List Char) (startDate : Int)
    (blocks : List (List Char × List (List Char)))
    (hne : blocks ≠ [])
    (hmark : ∀ i (hi : i < blocks.length),
      findDayMarker (pyStrip blocks[i].1) = some (i + 1) ∧ '\n' ∉ blocks[i].1)
    (hbul : ∀ blk ∈ blocks, blk.2 ≠ [] ∧ ∀ b ∈ blk.2, goodBullet b) :
    (parse_plan_to_ics (joinNL (blocks.flatMap (fun blk => blk.1 :: blk.2)))
        destination startDate).length = blocks.length
    ∧ ∀ i (hi : i < blocks.length)
        (hi' : i < (parse_plan_to_ics (joinNL (blocks.flatMap (fun blk => blk.1 :: blk.2)))
          destination startDate).length),
        (parse_plan_to_ics (joinNL (blocks.flatMap (fun blk => blk.1 :: blk.2)))
            destination startDate)[i]
          = { name := str "Day " ++ natToChars (i + 1) ++ str ": " ++ destination
              eventBegin := (startDate + i, 9, 0)
              eventEnd := (startDate + i, 18, 0)
              description := (List.intercalate (str "\n") (blocks[i].2.map pyStrip)).take 1000 } := by
  have hlines : ∀ l ∈ blocks.flatMap (fun blk => blk.1 :: blk.2), '\n' ∉ l := by
    intro l hl
    obtain ⟨blk, hblk, hmem⟩ := List.mem_flatMap.1 hl
    rcases List.mem_cons.1 hmem with he | hb
    · obtain ⟨i, hi, hgi⟩ := List.mem_iff_getElem.1 hblk
      subst he
      rw [← hgi]
      exact (hmark i hi).2
    · exact ((hbul blk hblk).2 l hb).2.1
  have hlne : blocks.flatMap (fun blk => blk.1 :: blk.2) ≠ [] := by
    cases blocks with
    | nil => exact absurd rfl hne
    | cons b r => simp
  have hsplit := splitNLChar_joinNL _ hlne hlines
  have hblockshyp : ∀ blk ∈ numberBlocks 1 blocks, blk.1 ≠ 0 ∧
      findDayMarker (pyStrip blk.2.1) = some blk.1 ∧ blk.2.2 ≠ [] ∧
      ∀ b ∈ blk.2.2, goodBullet b := by
    intro blk hblk
    obtain ⟨i, hi, hbe⟩ := numberBlocks_mem 1 blocks blk hblk
    subst hbe
    refine ⟨by omega, ?_, (hbul blocks[i] (List.getElem_mem hi)).1,
      (hbul blocks[i] (List.getElem_mem hi)).2⟩
    show findDayMarker (pyStrip blocks[i].1) = some (1 + i)
    rw [(hmark i hi).1]
    congr 1
    omega
  have hev : parse_plan_to_ics (joinNL (blocks.flatMap (fun blk => blk.1 :: blk.2)))
      destination startDate
      = (numberBlocks 1 blocks).map
          (fun blk => mkDayEvent destination startDate blk.1 (blk.2.2.map pyStrip)) := by
    simp only [parse_plan_to_ics]
    rw [hsplit, ← numberBlocks_flatMap 1 blocks,
      parseLoop_blocks destination startDate (numberBlocks 1 blocks) hblockshyp none []]
    have hbne : (numberBlocks 1 blocks).map
        (fun blk => mkDayEvent destination startDate blk.1 (blk.2.2.map pyStrip)) ≠ [] := by
      cases hb : blocks with
      | nil => exact absurd hb hne
      | cons b r => simp [hb, numberBlocks]
    simp only [List.nil_append]
    rw [if_neg (by simpa [List.isEmpty_iff] using hbne)]
  constructor
  · rw [hev, List.length_map, numberBlocks_length]
  · intro i hi hi'
    rw [List.getElem_of_eq hev hi', List.getElem_map,
      numberBlocks_getElem 1 blocks i hi (by rw [numberBlocks_length]; exact hi)]
    unfold mkDayEvent
    have h1 : (1 + i : Nat) = i + 1 := Nat.add_comm 1 i
    have h2 : startDate + (((1 + i : Nat) : Int) - 1) = startDate + i := by
      push_cast
      ring
    rw [h1] at h2 ⊢
    rw [h2]

/-- Witness for C1 on a concrete two-day plan text. -/
theorem parse_plan_to_ics_day_events_witness :
    (parse_plan_to_ics (joinNL ([(str "Day 1:", [str "- eat"]),
        (str "Day 2:", [str "* swim"])].flatMap (fun blk => blk.1 :: blk.2)))
        (str "Goa") 10).length = 2
    ∧ (parse_plan_to_ics (joinNL ([(str "Day 1:", [str "- eat"]),
        (str "Day 2:", [str "* swim"])].flatMap (fun blk => blk.1 :: blk.2)))
        (str "Goa") 10)[0]?
      = some { name := str "Day " ++ natToChars (0 + 1) ++ str ": " ++ str "Goa"
               eventBegin := ((10 : Int) + (0 : Nat), 9, 0)
               eventEnd := ((10 : Int) + (0 : Nat), 18, 0)
               description := (List.intercalate (str "\n")
                 ([str "- eat"].map pyStrip)).take 1000 }
    ∧ (parse_plan_to_ics (joinNL ([(str "Day 1:", [str "- eat"]),
        (str "Day 2:", [str "* swim"])].flatMap (fun blk => blk.1 :: blk.2)))
        (str "Goa") 10)[1]?
      = some { name := str "Day " ++ natToChars (1 + 1) ++ str ": " ++ str "Goa"
               eventBegin := ((10 : Int) + (1 : Nat), 9, 0)
               eventEnd := ((10 : Int) + (1 : Nat), 18, 0)
               description := (List.intercalate (str "\n")
                 ([str "* swim"].map pyStrip)).take 1000 } := by
  have h := parse_plan_to_ics_day_events (str "Goa") 10
    [(str "Day 1:", [str "- eat"]), (str "Day 2:", [str "* swim"])]
    (by decide) (by decide) (by decide)
  have hb0 : 0 < (parse_plan_to_ics (joinNL ([(str "Day 1:", [str "- eat"]),
      (str "Day 2:", [str "* swim"])].flatMap (fun blk => blk.1 :: blk.2)))
      (str "Goa") 10).length := by rw [h.1]; decide
  have hb1 : 1 < (parse_plan_to_ics (joinNL ([(str "Day 1:", [str "- eat"]),
      (str "Day 2:", [str "* swim"])].flatMap (fun blk => blk.1 :: blk.2)))
      (str "Goa") 10).length := by rw [h.1]; decide
  refine ⟨h.1, ?_, ?_⟩
  · rw [List.getElem?_eq_getElem hb0, h.2 0 (by decide) hb0]
    rfl
  · rw [List.getElem?_eq_getElem hb1, h.2 1 (by decide) hb1]
    rfl

/-! ### C3: chunking preserves non-whitespace content, bounded chunk sizes -/

/-- The non-whitespace characters of a list, in order. -/
def nwChars (l : List Char) : List Char := l.filter (fun c => !pyIsSpace c)

theorem nwChars_append (a b : List Char) : nwChars (a ++ b) = nwChars a ++ nwChars b := by
  unfold nwChars
  exact List.filter_append _ _

theorem nwChars_dropWhile (l : List Char) :
    nwChars (l.dropWhile pyIsSpace) = nwChars l := by
  induction l with
  | nil => rfl
  | cons c rest ih =>
    by_cases h : pyIsSpace c = true
    · rw [List.dropWhile_cons_of_pos h, ih]
      simp [nwChars, h]
    · rw [List.dropWhile_cons_of_neg h]

theorem nwChars_reverse (l : List Char) : nwChars l.reverse = (nwChars l).reverse := by
  unfold nwChars
  exact List.filter_reverse _ _

theorem nwChars_pyStrip (l : List Char) : nwChars (pyStrip l) = nwChars l := by
  unfold pyStrip
  rw [nwChars_reverse, nwChars_dropWhile, nwChars_reverse, nwChars_dropWhile,
    List.reverse_reverse]

theorem nwChars_nil_imp_strip_nil (l : List Char) (h : nwChars l = []) : pyStrip l = [] := by
  have hall : ∀ c ∈ l, pyIsSpace c = true := by
    intro c hc
    have := List.filter_eq_nil_iff.1 h c hc
    simpa using this
  unfold pyStrip
  rw [List.dropWhile_eq_nil_iff.2 (fun x hx => hall x hx)]
  rfl

theorem splitNN_ne_nil : ∀ (t : List Char), splitNN t ≠ [] := by
  intro t
  induction t using splitNN.induct with
  | case1 => simp [splitNN]
  | case2 c => simp [splitNN]
  | case3 c₁ c₂ rest h ih => simp [splitNN, h]
  | case4 c₁ c₂ rest h hsp ih => exact absurd hsp ih
  | case5 c₁ c₂ rest h hh ht hsp ih =>
    unfold splitNN
    rw [if_neg h, hsp]
    simp

theorem splitNN_nw : ∀ (t : List Char), (splitNN t).flatMap nwChars = nwChars t := by
  intro t
  induction t using splitNN.induct with
  | case1 => rfl
  | case2 c => simp [splitNN]
  | case3 c₁ c₂ rest h ih =>
    obtain ⟨h1, h2⟩ := h
    subst h1; subst h2
    unfold splitNN
    rw [if_pos ⟨rfl, rfl⟩]
    rw [List.flatMap_cons, ih]
    simp [nwChars, pyIsSpace]
  | case4 c₁ c₂ rest h hsp ih => exact absurd hsp (splitNN_ne_nil _)
  | case5 c₁ c₂ rest h hh ht hsp ih =>
    unfold splitNN
    rw [if_neg h, hsp]
    rw [hsp, List.flatMap_cons] at ih
    show ((c₁ :: hh) :: ht).flatMap nwChars = nwChars (c₁ :: c₂ :: rest)
    rw [List.flatMap_cons]
    show nwChars ([c₁] ++ hh) ++ ht.flatMap nwChars = nwChars ([c₁] ++ c₂ :: rest)
    rw [nwChars_append, nwChars_append, List.append_assoc, ih]

theorem pySplitWsAux_nw : ∀ (l cur : List Char), (∀ c ∈ cur, pyIsSpace c = false) →
    (pySplitWsAux l cur).flatMap nwChars = cur.reverse ++ nwChars l := by
  intro l
  induction l with
  | nil =>
    intro cur hcur
    unfold pySplitWsAux
    by_cases h : cur.isEmpty
    · rw [if_pos h]
      rw [List.isEmpty_iff.1 h]
      rfl
    · rw [if_neg h]
      simp only [List.flatMap_cons, List.flatMap_nil, List.append_nil]
      have : nwChars cur.reverse = cur.reverse := by
        apply List.filter_eq_self.2
        intro a ha
        simp [hcur a (List.mem_reverse.1 ha)]
      rw [this]
      simp [nwChars]
  | cons c rest ih =>
    intro cur hcur
    unfold pySplitWsAux
    by_cases h : pyIsSpace c = true
    · rw [if_pos h]
      by_cases hc : cur.isEmpty
      · rw [if_pos hc, ih [] (by simp)]
        rw [List.isEmpty_iff.1 hc]
        simp [nwChars, h]
      · rw [if_neg hc]
        rw [List.flatMap_cons, ih [] (by simp)]
        have : nwChars cur.reverse = cur.reverse := by
          apply List.filter_eq_self.2
          intro a ha
          simp [hcur a (List.mem_reverse.1 ha)]
        show nwChars cur.reverse ++ ([] ++ nwChars rest) = cur.reverse ++ nwChars (c :: rest)
        rw [this]
        simp [nwChars, h]
    · rw [if_neg h]
      rw [ih (c :: cur) (fun x hx => by
        rcases List.mem_cons.1 hx with he | hm
        · subst he; simpa using h
        · exact hcur x hm)]
      simp [nwChars, h]

theorem pySplitWs_nw (l : List Char) : (pySplitWs l).flatMap nwChars = nwChars l := by
  unfold pySplitWs
  rw [pySplitWsAux_nw l [] (by simp)]
  rfl

theorem pySplitWsAux_good : ∀ (l cur : List Char), (∀ c ∈ cur, pyIsSpace c = false) →
    ∀ w ∈ pySplitWsAux l cur, w ≠ [] ∧ ∀ c ∈ w, pyIsSpace c = false := by
  intro l
  induction l with
  | nil =>
    intro cur hcur w hw
    unfold pySplitWsAux at hw
    by_cases h : cur.isEmpty
    · rw [if_pos h] at hw
      simp at hw
    · rw [if_neg h] at hw
      rcases List.mem_cons.1 hw with he | hm
      · subst he
        refine ⟨by simpa [List.isEmpty_iff] using h, ?_⟩
        intro c hc
        exact hcur c (List.mem_reverse.1 hc)
      · simp at hm
  | cons c rest ih =>
    intro cur hcur w hw
    unfold pySplitWsAux at hw
    by_cases h : pyIsSpace c = true
    · rw [if_pos h] at hw
      by_cases hc : cur.isEmpty
      · rw [if_pos hc] at hw
        exact ih [] (by simp) w hw
      · rw [if_neg hc] at hw
        rcases List.mem_cons.1 hw with he | hm
        · subst he
          refine ⟨by simpa [List.isEmpty_iff] using hc, ?_⟩
          intro x hx
          exact hcur x (List.mem_reverse.1 hx)
        · exact ih [] (by simp) w hm
    · rw [if_neg h] at hw
      refine ih (c :: cur) ?_ w hw
      intro x hx
      rcases List.mem_cons.1 hx with he | hm
      · subst he; simpa using h
      · exact hcur x hm

theorem pySplitWs_good (l : List Char) :
    ∀ w ∈ pySplitWs l, w ≠ [] ∧ ∀ c ∈ w, pyIsSpace c = false :=
  pySplitWsAux_good l [] (by simp)

theorem pySplitWs_ne_nil (l : List Char) (h : nwChars l ≠ []) : pySplitWs l ≠ [] := by
  intro he
  apply h
  rw [← pySplitWs_nw l, he]
  rfl

/-- A chunk respects the size budget unless it is a single oversized
whitespace-free word. -/
def goodChunk (chunk_size : Nat) (c : List Char) : Prop :=
  c.length ≤ chunk_size ∨ ∀ ch ∈ c, pyIsSpace ch = false

/-- Non-whitespace content of the `(chunks, current)` state. -/
def stNW (st : List (List Char) × List Char) : List Char :=
  st.1.flatMap nwChars ++ nwChars st.2

theorem packWords_nw (chunk_size : Nat) :
    ∀ (ws chunks : List (List Char)) (temp : List Char),
      stNW (packWords chunk_size ws chunks temp)
        = chunks.flatMap nwChars ++ nwChars temp ++ ws.flatMap nwChars := by
  intro ws
  induction ws with
  | nil => intro chunks temp; simp [packWords, stNW]
  | cons w ws' ih =>
    intro chunks temp
    unfold packWords
    by_cases h : temp.length + w.length + 1 ≤ chunk_size
    · rw [if_pos h, ih]
      by_cases ht : temp.isEmpty
      · rw [if_pos ht, List.isEmpty_iff.1 ht]
        simp [nwChars_append, nwChars]
      · rw [if_neg ht]
        rw [nwChars_append, nwChars_append]
        simp [nwChars, pyIsSpace, List.flatMap_cons]
    · rw [if_neg h, ih]
      by_cases ht : temp.isEmpty
      · rw [if_pos ht, List.isEmpty_iff.1 ht]
        simp [List.flatMap_cons, nwChars]
      · rw [if_neg ht]
        simp [List.flatMap_cons, List.flatMap_append]

theorem packWords_temp_ne (chunk_size : Nat) :
    ∀ (ws chunks : List (List Char)) (temp : List Char),
      (∀ w ∈ ws, w ≠ []) → (temp ≠ [] ∨ ws ≠ []) →
      (packWords chunk_size ws chunks temp).2 ≠ [] := by
  intro ws
  induction ws with
  | nil =>
    intro chunks temp _ hd
    rcases hd with h | h
    · exact h
    · exact absurd rfl h
  | cons w ws' ih =>
    intro chunks temp hws _
    have hw : w ≠ [] := hws w (List.mem_cons_self _ _)
    have hrec : ∀ x ∈ ws', x ≠ [] := fun x hx => hws x (List.mem_cons_of_mem _ hx)
    unfold packWords
    by_cases h : temp.length + w.length + 1 ≤ chunk_size
    · rw [if_pos h]
      refine ih chunks _ hrec (Or.inl ?_)
      by_cases ht : temp.isEmpty
      · rw [if_pos ht]; exact hw
      · rw [if_neg ht]; simp [hw]
    · rw [if_neg h]
      exact ih _ w hrec (Or.inl hw)

theorem packWords_good (chunk_size : Nat) :
    ∀ (ws chunks : List (List Char)) (temp : List Char),
      (∀ w ∈ ws, ∀ c ∈ w, pyIsSpace c = false) →
      (∀ c ∈ chunks, goodChunk chunk_size c) → goodChunk chunk_size temp →
      (∀ c ∈ (packWords chunk_size ws chunks temp).1, goodChunk chunk_size c)
        ∧ goodChunk chunk_size (packWords chunk_size ws chunks temp).2 := by
  intro ws
  induction ws with
  | nil => intro chunks temp _ hc ht; exact ⟨hc, ht⟩
  | cons w ws' ih =>
    intro chunks temp hws hc ht
    have hwnw : ∀ c ∈ w, pyIsSpace c = false := hws w (List.mem_cons_self _ _)
    have hrec := fun x hx => hws x (List.mem_cons_of_mem _ hx)
    unfold packWords
    by_cases h : temp.length + w.length + 1 ≤ chunk_size
    · rw [if_pos h]
      refine ih chunks _ hrec hc (Or.inl ?_)
      by_cases hte : temp.isEmpty
      · rw [if_pos hte]
        omega
      · rw [if_neg hte]
        simp only [List.length_append, List.length_cons, List.length_nil]
        omega
    · rw [if_neg h]
      refine ih _ w hrec ?_ (Or.inr hwnw)
      intro c hcm
      by_cases hte : temp.isEmpty
      · rw [if_pos hte] at hcm
        exact hc c hcm
      · rw [if_neg hte] at hcm
        rcases List.mem_append.1 hcm with hm | hm
        · exact hc c hm
        · rw [List.mem_singleton.1 hm]
          exact ht

theorem nwChars_strip_ne (p : List Char) (hpe : ¬(pyStrip p).isEmpty = true) :
    nwChars (pyStrip p) ≠ [] := by
  intro h0
  rw [nwChars_pyStrip] at h0
  exact hpe (by simp [List.isEmpty_iff, nwChars_nil_imp_strip_nil p h0])

theorem filter_pyStrip (p : List Char) :
    List.filter (fun c => !pyIsSpace c) (pyStrip p) = List.filter (fun c => !pyIsSpace c) p :=
  nwChars_pyStrip p

theorem processParaLong_nw (chunk_size : Nat) (chunks₁ : List (List Char))
    (current p : List Char) (hpe : ¬(pyStrip p).isEmpty = true) :
    stNW ((packWords chunk_size (pySplitWs (pyStrip p)) chunks₁ []).1,
      if (packWords chunk_size (pySplitWs (pyStrip p)) chunks₁ []).2.isEmpty then current
      else (packWords chunk_size (pySplitWs (pyStrip p)) chunks₁ []).2)
      = chunks₁.flatMap nwChars ++ nwChars p := by
  have hne := pySplitWs_ne_nil _ (nwChars_strip_ne p hpe)
  have htemp := packWords_temp_ne chunk_size (pySplitWs (pyStrip p)) chunks₁ []
    (fun w hw => (pySplitWs_good _ w hw).1) (Or.inr hne)
  rw [if_neg (by simpa [List.isEmpty_iff] using htemp)]
  show stNW (packWords chunk_size (pySplitWs (pyStrip p)) chunks₁ []) = _
  rw [packWords_nw, pySplitWs_nw, nwChars_pyStrip]
  simp [nwChars]

theorem processPara_nw (chunk_size : Nat) (chunks : List (List Char)) (current : List Char)
    (p : List Char) :
    stNW (processPara chunk_size (chunks, current) p)
      = stNW (chunks, current) ++ nwChars p := by
  unfold processPara
  by_cases hpe : (pyStrip p).isEmpty
  · rw [if_pos hpe]
    have hnw : nwChars p = [] := by
      rw [← nwChars_pyStrip p, List.isEmpty_iff.1 hpe]
      rfl
    rw [hnw, List.append_nil]
  · rw [if_neg hpe]
    by_cases hfit : current.length + (pyStrip p).length + 2 ≤ chunk_size
    · rw [if_pos hfit]
      by_cases hce : current.isEmpty
      · rw [if_pos hce, List.isEmpty_iff.1 hce]
        simp [stNW, nwChars, filter_pyStrip]
      · rw [if_neg hce]
        simp only [stNW]
        rw [nwChars_append, nwChars_append, nwChars_pyStrip]
        have : nwChars (str "\n\n") = [] := rfl
        rw [this]
        simp
    · rw [if_neg hfit]
      by_cases hlong : chunk_size < (pyStrip p).length
      · rw [if_pos hlong]
        show stNW ((packWords chunk_size (pySplitWs (pyStrip p))
            (if current.isEmpty then chunks else chunks ++ [current]) []).1,
            if (packWords chunk_size (pySplitWs (pyStrip p))
              (if current.isEmpty then chunks else chunks ++ [current]) []).2.isEmpty
            then current
            else (packWords chunk_size (pySplitWs (pyStrip p))
              (if current.isEmpty then chunks else chunks ++ [current]) []).2) = _
        rw [processParaLong_nw chunk_size _ current p hpe]
        by_cases hce : current.isEmpty
        · rw [if_pos hce, List.isEmpty_iff.1 hce]
          simp [stNW, nwChars]
        · rw [if_neg hce]
          simp [stNW, List.flatMap_append, nwChars]
      · rw [if_neg hlong]
        by_cases hce : current.isEmpty
        · rw [if_pos hce, List.isEmpty_iff.1 hce]
          simp [stNW, nwChars, filter_pyStrip]
        · rw [if_neg hce]
          simp [stNW, List.flatMap_append, nwChars, filter_pyStrip]

theorem processPara_good (chunk_size : Nat) (chunks : List (List Char)) (current : List Char)
    (p : List Char) (hc : ∀ c ∈ chunks, goodChunk chunk_size c)
    (hcur : goodChunk chunk_size current) :
    (∀ c ∈ (processPara chunk_size (chunks, current) p).1, goodChunk chunk_size c)
      ∧ goodChunk chunk_size (processPara chunk_size (chunks, current) p).2 := by
  unfold processPara
  by_cases hpe : (pyStrip p).isEmpty
  · rw [if_pos hpe]
    exact ⟨hc, hcur⟩
  · rw [if_neg hpe]
    have hchunks₁ : ∀ c ∈ (if current.isEmpty then chunks else chunks ++ [current]),
        goodChunk chunk_size c := by
      intro c hcm
      by_cases hce : current.isEmpty
      · rw [if_pos hce] at hcm
        exact hc c hcm
      · rw [if_neg hce] at hcm
        rcases List.mem_append.1 hcm with hm | hm
        · exact hc c hm
        · rw [List.mem_singleton.1 hm]
          exact hcur
    by_cases hfit : current.length + (pyStrip p).length + 2 ≤ chunk_size
    · rw [if_pos hfit]
      refine ⟨hc, ?_⟩
      by_cases hce : current.isEmpty
      · rw [if_pos hce]
        left
        show (pyStrip p).length ≤ chunk_size
        omega
      · rw [if_neg hce]
        left
        show (current ++ str "\n\n" ++ pyStrip p).length ≤ chunk_size
        have h2 : (str "\n\n").length = 2 := rfl
        rw [List.length_append, List.length_append, h2]
        omega
    · rw [if_neg hfit]
      by_cases hlong : chunk_size < (pyStrip p).length
      · rw [if_pos hlong]
        have hwords : ∀ w ∈ pySplitWs (pyStrip p), ∀ c ∈ w, pyIsSpace c = false :=
          fun w hw => (pySplitWs_good (pyStrip p) w hw).2
        have hpack := packWords_good chunk_size (pySplitWs (pyStrip p))
          (if current.isEmpty then chunks else chunks ++ [current]) [] hwords hchunks₁
          (Or.inl (by simp))
        refine ⟨hpack.1, ?_⟩
        show goodChunk chunk_size (if (packWords chunk_size (pySplitWs (pyStrip p))
            (if current.isEmpty then chunks else chunks ++ [current]) []).2.isEmpty
          then current
          else (packWords chunk_size (pySplitWs (pyStrip p))
            (if current.isEmpty then chunks else chunks ++ [current]) []).2)
        by_cases hte : (packWords chunk_size (pySplitWs (pyStrip p))
            (if current.isEmpty then chunks else chunks ++ [current]) []).2.isEmpty
        · rw [if_pos hte]
          exact hcur
        · rw [if_neg hte]
          exact hpack.2
      · rw [if_neg hlong]
        refine ⟨hchunks₁, Or.inl ?_⟩
        show (pyStrip p).length ≤ chunk_size
        omega

theorem foldl_processPara_nw (chunk_size : Nat) :
    ∀ (ps : List (List Char)) (st : List (List Char) × List Char),
      stNW (ps.foldl (processPara chunk_size) st) = stNW st ++ ps.flatMap nwChars := by
  intro ps
  induction ps with
  | nil => intro st; simp
  | cons p ps' ih =>
    intro st
    obtain ⟨chunks, current⟩ := st
    rw [List.foldl_cons, ih (processPara chunk_size (chunks, current) p),
      processPara_nw, List.flatMap_cons, List.append_assoc]

theorem foldl_processPara_good (chunk_size : Nat) :
    ∀ (ps : List (List Char)) (st : List (List Char) × List Char),
      (∀ c ∈ st.1, goodChunk chunk_size c) → goodChunk chunk_size st.2 →
      (∀ c ∈ (ps.foldl (processPara chunk_size) st).1, goodChunk chunk_size c)
        ∧ goodChunk chunk_size (ps.foldl (processPara chunk_size) st).2 := by
  intro ps
  induction ps with
  | nil => intro st h1 h2; exact ⟨h1, h2⟩
  | cons p ps' ih =>
    intro st h1 h2
    obtain ⟨chunks, current⟩ := st
    rw [List.foldl_cons]
    have hstep := processPara_good chunk_size chunks current p h1 h2
    exact ih _ hstep.1 hstep.2

/-! ### C3: main theorem -/

/-- C3: for every input text, chunk size and overlap, concatenating the
returned chunks reproduces exactly the non-whitespace characters of the
input, each once and in input order; and every returned chunk either fits
the chunk size or is a single whitespace-free word (which alone may exceed
it). -/
theorem split_text_into_chunks_spec (text : List Char) (chunk_size overlap : Nat) :
    ((split_text_into_chunks text chunk_size overlap).flatten).filter (fun c => !pyIsSpace c)
      = text.filter (fun c => !pyIsSpace c)
    ∧ ∀ c ∈ split_text_into_chunks text chunk_size overlap,
        c.length ≤ chunk_size ∨ ∀ ch ∈ c, pyIsSpace ch = false := by
  unfold split_text_into_chunks
  by_cases hte : text.isEmpty
  · rw [if_pos hte, List.isEmpty_iff.1 hte]
    exact ⟨rfl, by simp⟩
  · rw [if_neg hte]
    have hfold := foldl_processPara_nw chunk_size (splitNN text) ([], [])
    have hgood := foldl_processPara_good chunk_size (splitNN text) ([], [])
      (by simp) (Or.inl (by simp))
    rw [splitNN_nw] at hfold
    have hout : ∀ (l : List (List Char)),
        (l.flatten).filter (fun c => !pyIsSpace c) = l.flatMap nwChars := by
      intro l
      rw [List.filter_flatten]
      induction l with
      | nil => rfl
      | cons x xs ihx => simp [List.flatMap_cons, nwChars, ihx]
    constructor
    · by_cases hce : ((splitNN text).foldl (processPara chunk_size) ([], [])).2.isEmpty
      · rw [if_pos hce, hout]
        have : stNW ((splitNN text).foldl (processPara chunk_size) ([], []))
            = ((splitNN text).foldl (processPara chunk_size) ([], [])).1.flatMap nwChars := by
          unfold stNW
          rw [List.isEmpty_iff.1 hce]
          simp [nwChars]
        rw [← this, hfold]
        rfl
      · rw [if_neg hce, hout]
        rw [List.flatMap_append]
        have : ((splitNN text).foldl (processPara chunk_size) ([], [])).1.flatMap nwChars
              ++ [((splitNN text).foldl (processPara chunk_size) ([], [])).2].flatMap nwChars
            = stNW ((splitNN text).foldl (processPara chunk_size) ([], [])) := by
          unfold stNW
          simp
        rw [this, hfold]
        rfl
    · intro c hc
      by_cases hce : ((splitNN text).foldl (processPara chunk_size) ([], [])).2.isEmpty
      · rw [if_pos hce] at hc
        exact hgood.1 c hc
      · rw [if_neg hce] at hc
        rcases List.mem_append.1 hc with hm | hm
        · exact hgood.1 c hm
        · rw [List.mem_singleton.1 hm]
          exact hgood.2

/-- Witness for C3 at a concrete text, instantiating the per-chunk bound. -/
theorem split_text_into_chunks_spec_witness :
    ((split_text_into_chunks (str "aaaa bb\n\ncc") 4 50).flatten).filter (fun c => !pyIsSpace c)
      = (str "aaaa bb\n\ncc").filter (fun c => !pyIsSpace c)
    ∧ ((str "aaaa").length ≤ 4 ∨ ∀ ch ∈ str "aaaa", pyIsSpace ch = false) :=
  ⟨(split_text_into_chunks_spec (str "aaaa bb\n\ncc") 4 50).1,
   (split_text_into_chunks_spec (str "aaaa bb\n\ncc") 4 50).2 (str "aaaa") (by decide)⟩
